import Mathlib

/-!
# rater: the cache bucket (`bucket.go`)

A sequential model of `cacheBucket`: the two `container/list` queues are Lean
lists (front = head, `PushBack` = append at the end), Go `int` configuration
values are `Int`, and the mutex is left out because every operation below is
one whole critical section.

Two external collaborators are made observable:

* the `Generator`: the value returned by its `k`-th call to `Generate` is
  `generator k`, and the bucket counts the calls made so far in `generated`;
* the `Event` callbacks: a callback is either nil or present, and each call of
  a present callback is appended to the `log` of the bucket.
-/

namespace Rater

/-- A Go `interface{}` value: `none` is the nil interface, `some v` any other value. -/
abbrev Tokenizer (α : Type) := Option α

/-- The `Event` struct: for each of the five callbacks, whether it is non-nil. -/
structure Event where
  OnCreate : Bool
  OnSave : Bool
  OnCache : Bool
  OnDiscard : Bool
  OnRemove : Bool
  deriving DecidableEq, Repr

/-- One call of a callback of `Event`, with the tokenizer it received. -/
inductive HookCall (α : Type) where
  | OnCreate (t : Tokenizer α)
  | OnSave (t : Tokenizer α)
  | OnCache (t : Tokenizer α)
  | OnDiscard (t : Tokenizer α)
  | OnRemove (t : Tokenizer α)
  deriving DecidableEq, Repr

/-- The `cacheBucket` struct. `list` and `caches` are the primary and the overflow
queue; `event = none` is the nil `*Event`; `generated` and `log` record the calls made
to the generator and to the callbacks. -/
structure cacheBucket (α : Type) where
  initSize : Int
  maxSize : Int
  cacheMaxSize : Int
  duration : Int
  list : List (Tokenizer α)
  caches : List (Tokenizer α)
  generator : Nat → Tokenizer α
  event : Option Event
  generated : Nat
  log : List (HookCall α)

variable {α : Type}

/-- Method `onCache`: calls `event.OnCache` when the table and the entry are both non-nil. -/
def cacheBucket.onCache (b : cacheBucket α) (tokenizer : Tokenizer α) : cacheBucket α :=
  match b.event with
  | some e => if e.OnCache then { b with log := b.log ++ [HookCall.OnCache tokenizer] } else b
  | none => b

/-- Method `onSave`: calls `event.OnSave` when the table and the entry are both non-nil. -/
def cacheBucket.onSave (b : cacheBucket α) (tokenizer : Tokenizer α) : cacheBucket α :=
  match b.event with
  | some e => if e.OnSave then { b with log := b.log ++ [HookCall.OnSave tokenizer] } else b
  | none => b

/-- Method `onCreate`: calls `event.OnCreate` when the table and the entry are both non-nil. -/
def cacheBucket.onCreate (b : cacheBucket α) (tokenizer : Tokenizer α) : cacheBucket α :=
  match b.event with
  | some e => if e.OnCreate then { b with log := b.log ++ [HookCall.OnCreate tokenizer] } else b
  | none => b

/-- Method `onDiscard`: calls `event.OnDiscard` when the table and the entry are both non-nil. -/
def cacheBucket.onDiscard (b : cacheBucket α) (tokenizer : Tokenizer α) : cacheBucket α :=
  match b.event with
  | some e => if e.OnDiscard then { b with log := b.log ++ [HookCall.OnDiscard tokenizer] } else b
  | none => b

/-- Method `onRemove`: calls `event.OnRemove` when the table and the entry are both non-nil. -/
def cacheBucket.onRemove (b : cacheBucket α) (tokenizer : Tokenizer α) : cacheBucket α :=
  match b.event with
  | some e => if e.OnRemove then { b with log := b.log ++ [HookCall.OnRemove tokenizer] } else b
  | none => b

/-- Method `push`: `Generate` is called first, whatever `maxSize` is; the rest of the body is
guarded by `maxSize > 0`. -/
def cacheBucket.push (b0 : cacheBucket α) : cacheBucket α :=
  let tokenizer := b0.generator b0.generated
  let b := { b0 with generated := b0.generated + 1 }
  if b.maxSize > 0 then
    let b := b.onCreate tokenizer
    if (b.list.length : Int) < b.maxSize then
      let b := { b with list := b.list ++ [tokenizer] }
      b.onSave tokenizer
    else if b.cacheMaxSize > 0 then
      if (b.caches.length : Int) < b.cacheMaxSize then
        let b := { b with caches := b.caches ++ [tokenizer] }
        b.onCache tokenizer
      else
        b.onDiscard tokenizer
    else
      b.onDiscard tokenizer
  else
    b

/-- Method `Token`: the returned pair `(value, found)` and the bucket afterwards. -/
def cacheBucket.Token (b0 : cacheBucket α) : (Tokenizer α × Bool) × cacheBucket α :=
  match b0.list with
  | [] => ((none, false), b0)
  | element :: rest =>
    let b := { b0 with list := rest }
    let b :=
      if b.caches.length > 0 then
        match b.caches with
        | [] => b
        | cacheEle :: others => { b with list := b.list ++ [cacheEle], caches := others }
      else
        b
    let value := element
    let b := b.onRemove value
    ((value, true), b)

/-- The loop `for i := 0; i < b.initSize; i++ { b.push() }`, given the number of
iterations still to run. -/
def cacheBucket.pushTimes : Nat → cacheBucket α → cacheBucket α
  | 0, b => b
  | n + 1, b => cacheBucket.pushTimes n b.push

/-- Constructor `CacheBucket`: the bucket as returned to the caller, before the goroutine launched by
`start` has made its first `push`. -/
def CacheBucket (initSize maxSize cacheMaxSize duration : Int)
    (generator : Nat → Tokenizer α) (event : Option Event) : cacheBucket α :=
  let maxSize := if maxSize < 0 then 0 else maxSize
  let initSize := if initSize < 0 then 0 else initSize
  let b : cacheBucket α :=
    { initSize := initSize
      maxSize := maxSize
      cacheMaxSize := cacheMaxSize
      duration := duration
      list := []
      caches := []
      generator := generator
      event := event
      generated := 0
      log := [] }
  if b.initSize > 0 then b.pushTimes b.initSize.toNat else b

/-- An operation on a constructed bucket: a `push` (made by the background goroutine)
or a `Token` call of a caller. -/
inductive Op where
  | push
  | Token
  deriving DecidableEq, Repr

/-- The bucket after one operation. -/
def cacheBucket.step (b : cacheBucket α) : Op → cacheBucket α
  | Op.push => b.push
  | Op.Token => b.Token.2

/-- The bucket after a sequence of operations, run from left to right. -/
def cacheBucket.run (b : cacheBucket α) (ops : List Op) : cacheBucket α :=
  ops.foldl cacheBucket.step b

/-- The table with all five callbacks present. -/
def Event.full : Event :=
  { OnCreate := true, OnSave := true, OnCache := true, OnDiscard := true, OnRemove := true }

/-- A generator whose `k`-th call returns the value `k`. -/
def counter : Nat → Tokenizer Nat := fun k => some k

/-- The pairs `(value, found)` returned by the `Token` calls of a sequence of operations,
in order. -/
def cacheBucket.results (b : cacheBucket α) : List Op → List (Tokenizer α × Bool)
  | [] => []
  | Op.push :: ops => cacheBucket.results b.push ops
  | Op.Token :: ops => b.Token.1 :: cacheBucket.results b.Token.2 ops

/-- The value of a `Token` result when it was found. -/
def foundValue (r : Tokenizer α × Bool) : Option (Tokenizer α) :=
  if r.2 then some r.1 else none

/-- The values handed out by the successful `Token` calls of a sequence of operations,
in order. -/
def cacheBucket.returned (b : cacheBucket α) (ops : List Op) : List (Tokenizer α) :=
  (b.results ops).filterMap foundValue

/-- The tokens held by the bucket: `list` followed by `caches`. -/
def cacheBucket.queue (b : cacheBucket α) : List (Tokenizer α) :=
  b.list ++ b.caches

/-- The shape of the two queues: `list` is within `maxSize`, and `caches` holds something
only on an enabled bucket whose `list` is full. -/
def cacheBucket.Shaped (b : cacheBucket α) : Prop :=
  (b.list.length : Int) ≤ b.maxSize ∧
    (b.caches ≠ [] → (b.list.length : Int) = b.maxSize ∧ 0 < b.maxSize)

/-- The tokens `handed ++ held` are generated values taken in generation order: they are
the values of the generator at strictly increasing call numbers below `n`. -/
def InGenerationOrder (generator : Nat → Tokenizer α) (n : Nat)
    (handed held : List (Tokenizer α)) : Prop :=
  ∃ idx : List Nat, idx.Sorted (· < ·) ∧ (∀ i ∈ idx, i < n) ∧ handed ++ held = idx.map generator

/-- Specification model, in the words of the refinement claim: a single bounded FIFO queue
with a capacity, fed by the same generator. -/
structure BoundedQueue (α : Type) where
  capacity : Int
  items : List (Tokenizer α)
  generator : Nat → Tokenizer α
  generated : Nat

/-- Specification model: the empty queue of a given capacity. -/
def BoundedQueue.empty (capacity : Int) (generator : Nat → Tokenizer α) : BoundedQueue α :=
  { capacity := capacity, items := [], generator := generator, generated := 0 }

/-- Specification model: Replenish generates a token and appends it when
`len(Q) < capacity`; otherwise the token is discarded. -/
def BoundedQueue.replenish (q : BoundedQueue α) : BoundedQueue α :=
  if (q.items.length : Int) < q.capacity then
    { q with items := q.items ++ [q.generator q.generated], generated := q.generated + 1 }
  else
    { q with generated := q.generated + 1 }

/-- Specification model: Acquire returns and removes the front of `Q`, or reports that
nothing was found. -/
def BoundedQueue.acquire (q : BoundedQueue α) : (Tokenizer α × Bool) × BoundedQueue α :=
  match q.items with
  | [] => ((none, false), q)
  | a :: rest => ((a, true), { q with items := rest })

/-- Specification model: the queue after a sequence of operations. -/
def BoundedQueue.run (q : BoundedQueue α) : List Op → BoundedQueue α
  | [] => q
  | Op.push :: ops => BoundedQueue.run q.replenish ops
  | Op.Token :: ops => BoundedQueue.run q.acquire.2 ops

/-- Specification model: the pairs returned by the Acquire calls of a sequence of
operations, in order. -/
def BoundedQueue.results (q : BoundedQueue α) : List Op → List (Tokenizer α × Bool)
  | [] => []
  | Op.push :: ops => BoundedQueue.results q.replenish ops
  | Op.Token :: ops => q.acquire.1 :: BoundedQueue.results q.acquire.2 ops

/-- The simulation relation between an enabled bucket and the bounded queue. -/
def Simulates (b : cacheBucket α) (q : BoundedQueue α) : Prop :=
  b.Shaped ∧ 0 < b.maxSize ∧ q.capacity = b.maxSize + max b.cacheMaxSize 0 ∧
    q.items = b.queue ∧ q.generator = b.generator ∧ q.generated = b.generated

/-- The bucket with another callback table. -/
def cacheBucket.withEvent (b : cacheBucket α) (event : Option Event) : cacheBucket α :=
  { b with event := event }

/-- The entry of the table that a callback call goes to. -/
def HookCall.entry : HookCall α → Event → Bool
  | HookCall.OnCreate _ => Event.OnCreate
  | HookCall.OnSave _ => Event.OnSave
  | HookCall.OnCache _ => Event.OnCache
  | HookCall.OnDiscard _ => Event.OnDiscard
  | HookCall.OnRemove _ => Event.OnRemove

/-- Whether the table is non-nil and its entry for a callback call is non-nil. -/
def entryPresent (event : Option Event) (call : HookCall α) : Bool :=
  match event with
  | some e => call.entry e
  | none => false

/-! ## Frame lemmas: what the callbacks, `push` and `Token` leave alone -/

/-- What one callback site adds to the log: the call when the table is non-nil and so
is the entry, nothing otherwise. -/
def hookLog (event : Option Event) (entry : Event → Bool) (call : HookCall α) :
    List (HookCall α) :=
  match event with
  | some e => if entry e then [call] else []
  | none => []

lemma onCreate_eq (b : cacheBucket α) (t : Tokenizer α) :
    b.onCreate t = { b with log := b.log ++ hookLog b.event Event.OnCreate (HookCall.OnCreate t) } := by
  cases b with
  | mk i m c d l cs g ev n lg =>
    cases ev with
    | none => simp [cacheBucket.onCreate, hookLog]
    | some e => by_cases h : e.OnCreate <;> simp [cacheBucket.onCreate, hookLog, h]

lemma onSave_eq (b : cacheBucket α) (t : Tokenizer α) :
    b.onSave t = { b with log := b.log ++ hookLog b.event Event.OnSave (HookCall.OnSave t) } := by
  cases b with
  | mk i m c d l cs g ev n lg =>
    cases ev with
    | none => simp [cacheBucket.onSave, hookLog]
    | some e => by_cases h : e.OnSave <;> simp [cacheBucket.onSave, hookLog, h]

lemma onCache_eq (b : cacheBucket α) (t : Tokenizer α) :
    b.onCache t = { b with log := b.log ++ hookLog b.event Event.OnCache (HookCall.OnCache t) } := by
  cases b with
  | mk i m c d l cs g ev n lg =>
    cases ev with
    | none => simp [cacheBucket.onCache, hookLog]
    | some e => by_cases h : e.OnCache <;> simp [cacheBucket.onCache, hookLog, h]

lemma onDiscard_eq (b : cacheBucket α) (t : Tokenizer α) :
    b.onDiscard t = { b with log := b.log ++ hookLog b.event Event.OnDiscard (HookCall.OnDiscard t) } := by
  cases b with
  | mk i m c d l cs g ev n lg =>
    cases ev with
    | none => simp [cacheBucket.onDiscard, hookLog]
    | some e => by_cases h : e.OnDiscard <;> simp [cacheBucket.onDiscard, hookLog, h]

lemma onRemove_eq (b : cacheBucket α) (t : Tokenizer α) :
    b.onRemove t = { b with log := b.log ++ hookLog b.event Event.OnRemove (HookCall.OnRemove t) } := by
  cases b with
  | mk i m c d l cs g ev n lg =>
    cases ev with
    | none => simp [cacheBucket.onRemove, hookLog]
    | some e => by_cases h : e.OnRemove <;> simp [cacheBucket.onRemove, hookLog, h]

/-- The three branches of `push` on an enabled bucket, and the disabled case. -/
lemma push_save (b : cacheBucket α) (h : 0 < b.maxSize)
    (hl : (b.list.length : Int) < b.maxSize) :
    b.push = { b with
      generated := b.generated + 1
      list := b.list ++ [b.generator b.generated]
      log := (b.log ++ hookLog b.event Event.OnCreate (HookCall.OnCreate (b.generator b.generated)))
        ++ hookLog b.event Event.OnSave (HookCall.OnSave (b.generator b.generated)) } := by
  simp [cacheBucket.push, onCreate_eq, onSave_eq, h, hl]

lemma push_cache (b : cacheBucket α) (h : 0 < b.maxSize)
    (hl : ¬ (b.list.length : Int) < b.maxSize) (hc : 0 < b.cacheMaxSize)
    (hcl : (b.caches.length : Int) < b.cacheMaxSize) :
    b.push = { b with
      generated := b.generated + 1
      caches := b.caches ++ [b.generator b.generated]
      log := (b.log ++ hookLog b.event Event.OnCreate (HookCall.OnCreate (b.generator b.generated)))
        ++ hookLog b.event Event.OnCache (HookCall.OnCache (b.generator b.generated)) } := by
  simp [cacheBucket.push, onCreate_eq, onCache_eq, h, hl, hc, hcl]

lemma push_discard (b : cacheBucket α) (h : 0 < b.maxSize)
    (hl : ¬ (b.list.length : Int) < b.maxSize)
    (hc : ¬ (0 < b.cacheMaxSize ∧ (b.caches.length : Int) < b.cacheMaxSize)) :
    b.push = { b with
      generated := b.generated + 1
      log := (b.log ++ hookLog b.event Event.OnCreate (HookCall.OnCreate (b.generator b.generated)))
        ++ hookLog b.event Event.OnDiscard (HookCall.OnDiscard (b.generator b.generated)) } := by
  by_cases hc1 : 0 < b.cacheMaxSize
  · have hcl : ¬ (b.caches.length : Int) < b.cacheMaxSize := fun h2 => hc ⟨hc1, h2⟩
    simp [cacheBucket.push, onCreate_eq, onDiscard_eq, h, hl, hc1, hcl]
  · simp [cacheBucket.push, onCreate_eq, onDiscard_eq, h, hl, hc1]

lemma push_disabled (b : cacheBucket α) (h : ¬ 0 < b.maxSize) :
    b.push = { b with generated := b.generated + 1 } := by
  simp [cacheBucket.push, h]

/-- The two cases of `Token`. -/
lemma Token_nil (b : cacheBucket α) (h : b.list = []) :
    b.Token = ((none, false), b) := by
  simp [cacheBucket.Token, h]

lemma Token_cons_nil (b : cacheBucket α) (a : Tokenizer α) (p : List (Tokenizer α))
    (h : b.list = a :: p) (hc : b.caches = []) :
    b.Token = ((a, true), { b with
      list := p
      log := b.log ++ hookLog b.event Event.OnRemove (HookCall.OnRemove a) }) := by
  simp [cacheBucket.Token, h, hc, onRemove_eq]

lemma Token_cons_cons (b : cacheBucket α) (a c : Tokenizer α) (p o : List (Tokenizer α))
    (h : b.list = a :: p) (hc : b.caches = c :: o) :
    b.Token = ((a, true), { b with
      list := p ++ [c]
      caches := o
      log := b.log ++ hookLog b.event Event.OnRemove (HookCall.OnRemove a) }) := by
  simp [cacheBucket.Token, h, hc, onRemove_eq]

/-- Every `push` is one of three explicit updates: the token goes to `list`, to `caches`,
or nowhere. -/
lemma push_cases (b : cacheBucket α) :
    (∃ lg, (b.list.length : Int) < b.maxSize ∧ b.push =
      { b with generated := b.generated + 1, list := b.list ++ [b.generator b.generated], log := lg })
    ∨ (∃ lg, (b.caches.length : Int) < b.cacheMaxSize ∧ b.push =
      { b with generated := b.generated + 1, caches := b.caches ++ [b.generator b.generated], log := lg })
    ∨ (∃ lg, b.push = { b with generated := b.generated + 1, log := lg }) := by
  by_cases h : 0 < b.maxSize
  · by_cases hl : (b.list.length : Int) < b.maxSize
    · exact Or.inl ⟨_, hl, push_save b h hl⟩
    · by_cases hc : 0 < b.cacheMaxSize ∧ (b.caches.length : Int) < b.cacheMaxSize
      · exact Or.inr (Or.inl ⟨_, hc.2, push_cache b h hl hc.1 hc.2⟩)
      · exact Or.inr (Or.inr ⟨_, push_discard b h hl hc⟩)
  · refine Or.inr (Or.inr ⟨b.log, ?_⟩)
    rw [push_disabled b h]

/-- Every `Token` is one of three explicit updates. -/
lemma Token_cases (b : cacheBucket α) :
    (b.list = [] ∧ b.Token.2 = b) ∨
    (∃ a p lg, b.list = a :: p ∧ b.caches = [] ∧ b.Token.2 = { b with list := p, log := lg }) ∨
    (∃ a p c o lg, b.list = a :: p ∧ b.caches = c :: o ∧
      b.Token.2 = { b with list := p ++ [c], caches := o, log := lg }) := by
  cases b with
  | mk i m cm d l cs g ev n lg =>
    cases l with
    | nil => exact Or.inl ⟨rfl, by rw [Token_nil _ rfl]⟩
    | cons a p =>
      cases cs with
      | nil =>
        exact Or.inr (Or.inl ⟨a, p, _, rfl, rfl, by rw [Token_cons_nil _ a p rfl rfl]⟩)
      | cons c o =>
        exact Or.inr (Or.inr ⟨a, p, c, o, _, rfl, rfl, by rw [Token_cons_cons _ a c p o rfl rfl]⟩)

@[simp]
lemma push_maxSize (b : cacheBucket α) : b.push.maxSize = b.maxSize := by
  rcases push_cases b with ⟨lg, _, h⟩ | ⟨lg, _, h⟩ | ⟨lg, h⟩ <;> rw [h]

@[simp]
lemma push_cacheMaxSize (b : cacheBucket α) : b.push.cacheMaxSize = b.cacheMaxSize := by
  rcases push_cases b with ⟨lg, _, h⟩ | ⟨lg, _, h⟩ | ⟨lg, h⟩ <;> rw [h]

@[simp]
lemma push_event (b : cacheBucket α) : b.push.event = b.event := by
  rcases push_cases b with ⟨lg, _, h⟩ | ⟨lg, _, h⟩ | ⟨lg, h⟩ <;> rw [h]

@[simp]
lemma push_generator (b : cacheBucket α) : b.push.generator = b.generator := by
  rcases push_cases b with ⟨lg, _, h⟩ | ⟨lg, _, h⟩ | ⟨lg, h⟩ <;> rw [h]

@[simp]
lemma push_generated (b : cacheBucket α) : b.push.generated = b.generated + 1 := by
  rcases push_cases b with ⟨lg, _, h⟩ | ⟨lg, _, h⟩ | ⟨lg, h⟩ <;> rw [h]

@[simp]
lemma Token_maxSize (b : cacheBucket α) : b.Token.2.maxSize = b.maxSize := by
  rcases Token_cases b with ⟨_, h⟩ | ⟨a, p, lg, _, _, h⟩ | ⟨a, p, c, o, lg, _, _, h⟩ <;> rw [h]

@[simp]
lemma Token_cacheMaxSize (b : cacheBucket α) :
    b.Token.2.cacheMaxSize = b.cacheMaxSize := by
  rcases Token_cases b with ⟨_, h⟩ | ⟨a, p, lg, _, _, h⟩ | ⟨a, p, c, o, lg, _, _, h⟩ <;> rw [h]

@[simp]
lemma Token_event (b : cacheBucket α) : b.Token.2.event = b.event := by
  rcases Token_cases b with ⟨_, h⟩ | ⟨a, p, lg, _, _, h⟩ | ⟨a, p, c, o, lg, _, _, h⟩ <;> rw [h]

@[simp]
lemma Token_generator (b : cacheBucket α) : b.Token.2.generator = b.generator := by
  rcases Token_cases b with ⟨_, h⟩ | ⟨a, p, lg, _, _, h⟩ | ⟨a, p, c, o, lg, _, _, h⟩ <;> rw [h]

@[simp]
lemma Token_generated (b : cacheBucket α) : b.Token.2.generated = b.generated := by
  rcases Token_cases b with ⟨_, h⟩ | ⟨a, p, lg, _, _, h⟩ | ⟨a, p, c, o, lg, _, _, h⟩ <;> rw [h]

/-! ## Induction over the pre-warm loop and over sequences of operations -/

/-- The bucket literal built by `CacheBucket` before the pre-warm loop. -/
def CacheBucket.fresh (initSize maxSize cacheMaxSize duration : Int)
    (generator : Nat → Tokenizer α) (event : Option Event) : cacheBucket α :=
  { initSize := max initSize 0
    maxSize := max maxSize 0
    cacheMaxSize := cacheMaxSize
    duration := duration
    list := []
    caches := []
    generator := generator
    event := event
    generated := 0
    log := [] }

/-- The constructor `CacheBucket` is the literal followed by `max initSize 0` calls of `push`. -/
lemma CacheBucket_eq (initSize maxSize cacheMaxSize duration : Int)
    (generator : Nat → Tokenizer α) (event : Option Event) :
    CacheBucket initSize maxSize cacheMaxSize duration generator event =
      (CacheBucket.fresh initSize maxSize cacheMaxSize duration generator event).pushTimes
        (max initSize 0).toNat := by
  have hm : (if maxSize < 0 then 0 else maxSize) = max maxSize 0 := by
    split_ifs <;> omega
  have hi : (if initSize < 0 then 0 else initSize) = max initSize 0 := by
    split_ifs <;> omega
  simp only [CacheBucket, CacheBucket.fresh, hm, hi]
  split_ifs with h
  · rfl
  · have h0 : (max initSize 0).toNat = 0 := by omega
    rw [h0]
    rfl

lemma pushTimes_induction (P : cacheBucket α → Prop) (hp : ∀ b, P b → P b.push) :
    ∀ (n : Nat) (b : cacheBucket α), P b → P (b.pushTimes n)
  | 0, _, h => h
  | n + 1, b, h => pushTimes_induction P hp n b.push (hp b h)

lemma run_induction (P : cacheBucket α → Prop) (hp : ∀ b, P b → P b.push)
    (ht : ∀ b, P b → P b.Token.2) :
    ∀ (ops : List Op) (b : cacheBucket α), P b → P (b.run ops)
  | [], _, h => h
  | Op.push :: ops, b, h => run_induction P hp ht ops b.push (hp b h)
  | Op.Token :: ops, b, h => run_induction P hp ht ops b.Token.2 (ht b h)

/-- A property of the literal that `push` and `Token` preserve holds after construction and
after every sequence of operations. -/
lemma reachable_induction (P : cacheBucket α → Prop) (hp : ∀ b, P b → P b.push)
    (ht : ∀ b, P b → P b.Token.2) (initSize maxSize cacheMaxSize duration : Int)
    (generator : Nat → Tokenizer α) (event : Option Event)
    (h0 : P (CacheBucket.fresh initSize maxSize cacheMaxSize duration generator event))
    (ops : List Op) :
    P ((CacheBucket initSize maxSize cacheMaxSize duration generator event).run ops) := by
  rw [CacheBucket_eq]
  exact run_induction P hp ht ops _ (pushTimes_induction P hp _ _ h0)

/-! ## The capacity bounds are preserved -/

lemma push_list_le (b : cacheBucket α) (h : (b.list.length : Int) ≤ b.maxSize) :
    (b.push.list.length : Int) ≤ b.maxSize := by
  rcases push_cases b with ⟨lg, hl, e⟩ | ⟨lg, _, e⟩ | ⟨lg, e⟩
  · rw [e]
    simp only [List.length_append, List.length_singleton]
    push_cast
    omega
  · rw [e]
    exact h
  · rw [e]
    exact h

lemma Token_list_le (b : cacheBucket α) (h : (b.list.length : Int) ≤ b.maxSize) :
    (b.Token.2.list.length : Int) ≤ b.maxSize := by
  rcases Token_cases b with ⟨_, e⟩ | ⟨a, p, lg, hl, _, e⟩ | ⟨a, p, c, o, lg, hl, _, e⟩
  · rw [e]
    exact h
  · rw [e]
    rw [hl] at h
    simp only [List.length_cons] at h ⊢
    push_cast at h
    omega
  · rw [e]
    rw [hl] at h
    simp only [List.length_cons, List.length_append, List.length_nil] at h ⊢
    push_cast at h ⊢
    omega

lemma push_caches_le (b : cacheBucket α) (h : (b.caches.length : Int) ≤ max b.cacheMaxSize 0) :
    (b.push.caches.length : Int) ≤ max b.cacheMaxSize 0 := by
  rcases push_cases b with ⟨lg, _, e⟩ | ⟨lg, hc, e⟩ | ⟨lg, e⟩
  · rw [e]
    exact h
  · rw [e]
    simp only [List.length_append, List.length_singleton]
    push_cast
    omega
  · rw [e]
    exact h

lemma Token_caches_le (b : cacheBucket α) (h : (b.caches.length : Int) ≤ max b.cacheMaxSize 0) :
    (b.Token.2.caches.length : Int) ≤ max b.cacheMaxSize 0 := by
  rcases Token_cases b with ⟨_, e⟩ | ⟨a, p, lg, _, hc, e⟩ | ⟨a, p, c, o, lg, _, hc, e⟩
  · rw [e]
    exact h
  · rw [e]
    exact h
  · rw [e]
    rw [hc] at h
    simp only [List.length_cons] at h ⊢
    push_cast at h
    omega

lemma pushTimes_generated : ∀ (n : Nat) (b : cacheBucket α),
    (b.pushTimes n).generated = b.generated + n
  | 0, _ => rfl
  | n + 1, b => by
    rw [cacheBucket.pushTimes, pushTimes_generated n b.push, push_generated]
    omega

/-! ## The pre-warm loop -/

/-- While there is room in `list`, `n` calls of `push` append the next `n` generated values
to it and leave `caches` alone. -/
lemma pushTimes_list_of_room : ∀ (n : Nat) (b : cacheBucket α), 0 < b.maxSize →
    (b.list.length : Int) + n ≤ b.maxSize →
    (b.pushTimes n).list
      = b.list ++ (List.range n).map (fun k => b.generator (b.generated + k)) ∧
    (b.pushTimes n).caches = b.caches
  | 0, b, _, _ => by simp [cacheBucket.pushTimes]
  | n + 1, b, h, hr => by
    have hl : (b.list.length : Int) < b.maxSize := by push_cast at hr; omega
    have e := push_save b h hl
    have h1 : 0 < b.push.maxSize := by rw [push_maxSize]; exact h
    have h2 : (b.push.list.length : Int) + n ≤ b.push.maxSize := by
      rw [push_maxSize, e]
      simp only [List.length_append, List.length_singleton]
      push_cast at hr ⊢
      omega
    obtain ⟨ih1, ih2⟩ := pushTimes_list_of_room n b.push h1 h2
    rw [cacheBucket.pushTimes, ih1, ih2, push_generator, push_generated]
    constructor
    · rw [e, List.range_succ_eq_map, List.map_cons, List.map_map, List.append_assoc]
      simp only [List.singleton_append, Nat.add_zero]
      congr 2
      apply List.map_congr_left
      intro k _
      simp only [Function.comp_apply]
      congr 1
      omega
    · rw [e]

lemma push_list_length (b : cacheBucket α) :
    (b.push.list.length : Int)
      = if (b.list.length : Int) < b.maxSize then (b.list.length : Int) + 1
        else (b.list.length : Int) := by
  by_cases h : 0 < b.maxSize
  · by_cases hl : (b.list.length : Int) < b.maxSize
    · rw [push_save b h hl, if_pos hl]
      simp
    · rw [if_neg hl]
      by_cases hc : 0 < b.cacheMaxSize ∧ (b.caches.length : Int) < b.cacheMaxSize
      · rw [push_cache b h hl hc.1 hc.2]
      · rw [push_discard b h hl hc]
  · rw [push_disabled b h, if_neg (by omega)]

/-- The length of `list` after `n` calls of `push`. -/
lemma pushTimes_list_length : ∀ (n : Nat) (b : cacheBucket α),
    ((b.pushTimes n).list.length : Int)
      = min ((b.list.length : Int) + n) (max (b.list.length : Int) b.maxSize)
  | 0, b => by
    simp only [cacheBucket.pushTimes]
    omega
  | n + 1, b => by
    rw [cacheBucket.pushTimes, pushTimes_list_length n b.push, push_maxSize, push_list_length]
    split_ifs with hl <;> push_cast <;> omega

/-! ## The shape of the two queues -/

@[simp]
lemma push_initSize (b : cacheBucket α) : b.push.initSize = b.initSize := by
  rcases push_cases b with ⟨lg, _, h⟩ | ⟨lg, _, h⟩ | ⟨lg, h⟩ <;> rw [h]

lemma fresh_Shaped (initSize maxSize cacheMaxSize duration : Int)
    (generator : Nat → Tokenizer α) (event : Option Event) :
    (CacheBucket.fresh initSize maxSize cacheMaxSize duration generator event).Shaped := by
  refine ⟨?_, fun h => absurd rfl h⟩
  simp only [CacheBucket.fresh, List.length_nil]
  push_cast
  omega

lemma push_Shaped (b : cacheBucket α) (h : b.Shaped) : b.push.Shaped := by
  obtain ⟨h1, h2⟩ := h
  by_cases hm : 0 < b.maxSize
  · by_cases hl : (b.list.length : Int) < b.maxSize
    · have hc : b.caches = [] := by
        by_contra hne
        have := (h2 hne).1
        omega
      rw [push_save b hm hl]
      refine ⟨?_, fun hne => absurd hc hne⟩
      simp only [List.length_append, List.length_singleton]
      push_cast
      omega
    · by_cases hc : 0 < b.cacheMaxSize ∧ (b.caches.length : Int) < b.cacheMaxSize
      · rw [push_cache b hm hl hc.1 hc.2]
        have hfull : (b.list.length : Int) = b.maxSize := by omega
        exact ⟨h1, fun _ => ⟨hfull, hm⟩⟩
      · rw [push_discard b hm hl hc]
        exact ⟨h1, h2⟩
  · rw [push_disabled b hm]
    exact ⟨h1, h2⟩

lemma Token_Shaped (b : cacheBucket α) (h : b.Shaped) : b.Token.2.Shaped := by
  obtain ⟨h1, h2⟩ := h
  rcases Token_cases b with ⟨_, e⟩ | ⟨a, p, lg, hl, hc, e⟩ | ⟨a, p, c, o, lg, hl, hc, e⟩
  · rw [e]
    exact ⟨h1, h2⟩
  · rw [e]
    refine ⟨?_, fun hne => absurd hc hne⟩
    rw [hl] at h1
    simp only [List.length_cons] at h1 ⊢
    push_cast at h1
    omega
  · rw [e]
    have h3 := h2 (by rw [hc]; exact List.cons_ne_nil c o)
    rw [hl] at h3
    simp only [List.length_cons] at h3
    push_cast at h3
    refine ⟨?_, fun _ => ⟨?_, h3.2⟩⟩
    · simp only [List.length_append, List.length_cons, List.length_nil]
      push_cast
      omega
    · simp only [List.length_append, List.length_cons, List.length_nil]
      push_cast
      omega

/-- Every bucket reached from the constructor by `push` and `Token` is shaped. -/
lemma reachable_Shaped (initSize maxSize cacheMaxSize duration : Int)
    (generator : Nat → Tokenizer α) (event : Option Event) (ops : List Op) :
    ((CacheBucket initSize maxSize cacheMaxSize duration generator event).run ops).Shaped :=
  reachable_induction cacheBucket.Shaped push_Shaped Token_Shaped
    initSize maxSize cacheMaxSize duration generator event
    (fresh_Shaped initSize maxSize cacheMaxSize duration generator event) ops

/-- On a shaped bucket `push` acts on `list ++ caches` as on one bounded queue. -/
lemma push_queue (b : cacheBucket α) (h : b.Shaped) :
    b.push.queue =
      if 0 < b.maxSize ∧ (b.queue.length : Int) < b.maxSize + max b.cacheMaxSize 0 then
        b.queue ++ [b.generator b.generated]
      else b.queue := by
  obtain ⟨h1, h2⟩ := h
  by_cases hm : 0 < b.maxSize
  · by_cases hl : (b.list.length : Int) < b.maxSize
    · have hc : b.caches = [] := by
        by_contra hne
        have := (h2 hne).1
        omega
      rw [push_save b hm hl, if_pos]
      · simp [cacheBucket.queue, hc]
      · refine ⟨hm, ?_⟩
        simp only [cacheBucket.queue, hc, List.append_nil]
        omega
    · by_cases hc : 0 < b.cacheMaxSize ∧ (b.caches.length : Int) < b.cacheMaxSize
      · rw [push_cache b hm hl hc.1 hc.2, if_pos]
        · simp [cacheBucket.queue]
        · refine ⟨hm, ?_⟩
          simp only [cacheBucket.queue, List.length_append]
          push_cast
          omega
      · rw [push_discard b hm hl hc, if_neg]
        · rfl
        · rintro ⟨_, hq⟩
          simp only [cacheBucket.queue, List.length_append] at hq
          push_cast at hq
          by_cases hc1 : 0 < b.cacheMaxSize
          · have : ¬ (b.caches.length : Int) < b.cacheMaxSize := fun h3 => hc ⟨hc1, h3⟩
            omega
          · omega
  · rw [push_disabled b hm, if_neg (fun h3 => hm h3.1)]
    rfl

/-- On a shaped bucket `Token` takes the front of `list ++ caches`. -/
lemma Token_queue (b : cacheBucket α) (h : b.Shaped) :
    b.Token.1 = (match b.queue with
      | [] => (none, false)
      | a :: _ => (a, true)) ∧
    b.Token.2.queue = b.queue.tail := by
  obtain ⟨h1, h2⟩ := h
  cases hl : b.list with
  | nil =>
    have hc : b.caches = [] := by
      by_contra hne
      have h3 := h2 hne
      rw [hl] at h3
      simp only [List.length_nil] at h3
      omega
    rw [Token_nil b hl]
    simp [cacheBucket.queue, hl, hc]
  | cons a p =>
    cases hc : b.caches with
    | nil =>
      rw [Token_cons_nil b a p hl hc]
      simp [cacheBucket.queue, hl, hc]
    | cons c o =>
      rw [Token_cons_cons b a c p o hl hc]
      simp [cacheBucket.queue, hl, hc]

/-! ## Repeated `push` and repeated `Token` -/

lemma pushTimes_succ : ∀ (n : Nat) (b : cacheBucket α),
    b.pushTimes (n + 1) = (b.pushTimes n).push
  | 0, _ => rfl
  | n + 1, b => by
    rw [cacheBucket.pushTimes, pushTimes_succ n b.push]
    rfl

lemma pushTimes_add (m : Nat) : ∀ (k : Nat) (b : cacheBucket α),
    b.pushTimes (m + k) = (b.pushTimes m).pushTimes k
  | 0, _ => rfl
  | k + 1, b => by
    rw [← Nat.add_assoc, pushTimes_succ, pushTimes_succ, pushTimes_add m k b]

lemma pushTimes_config (n : Nat) (b : cacheBucket α) :
    (b.pushTimes n).maxSize = b.maxSize ∧ (b.pushTimes n).cacheMaxSize = b.cacheMaxSize ∧
    (b.pushTimes n).initSize = b.initSize ∧ (b.pushTimes n).event = b.event ∧
    (b.pushTimes n).generator = b.generator :=
  pushTimes_induction
    (fun x => x.maxSize = b.maxSize ∧ x.cacheMaxSize = b.cacheMaxSize ∧
      x.initSize = b.initSize ∧ x.event = b.event ∧ x.generator = b.generator)
    (fun x hx => by simpa using hx) n b ⟨rfl, rfl, rfl, rfl, rfl⟩

/-- The constructor with `initSize = 0` returns the literal. -/
lemma CacheBucket_zero (maxSize cacheMaxSize duration : Int)
    (generator : Nat → Tokenizer α) (event : Option Event) :
    CacheBucket 0 maxSize cacheMaxSize duration generator event
      = CacheBucket.fresh 0 maxSize cacheMaxSize duration generator event := by
  rw [CacheBucket_eq]
  rfl

/-- With `caches` empty, successive `Token` calls hand out `list` from the front and then
report that nothing was found. -/
lemma results_drain (j : Nat) : ∀ (l : List (Tokenizer α)) (b : cacheBucket α),
    b.list = l → b.caches = [] →
    b.results (List.replicate (l.length + j) Op.Token)
      = l.map (fun t => (t, true)) ++ List.replicate j (none, false)
  | [], b, hl, hc => by
    simp only [List.length_nil, Nat.zero_add, List.map_nil, List.nil_append]
    induction j with
    | zero => rfl
    | succ j ih =>
      rw [List.replicate_succ, cacheBucket.results, Token_nil b hl, ih]
      rfl
  | a :: p, b, hl, hc => by
    have hlen : (a :: p).length + j = (p.length + j) + 1 := by
      simp only [List.length_cons]
      omega
    rw [hlen, List.replicate_succ, cacheBucket.results, Token_cons_nil b a p hl hc]
    simp only [List.map_cons, List.cons_append]
    congr 1
    exact results_drain j p _ rfl hc

/-- A full bucket without overflow room stays as it is under `push`, apart from the
generator and the callbacks being called. -/
lemma pushTimes_full (l : List (Tokenizer α)) (k : Nat) (b : cacheBucket α)
    (hm : 0 < b.maxSize) (hc : b.cacheMaxSize ≤ 0) (hl : b.list = l)
    (hfull : (l.length : Int) = b.maxSize) (hcs : b.caches = []) :
    (b.pushTimes k).list = l ∧ (b.pushTimes k).caches = [] := by
  have key := pushTimes_induction
    (fun x : cacheBucket α => x.maxSize = b.maxSize ∧ x.cacheMaxSize = b.cacheMaxSize ∧
      x.list = l ∧ x.caches = [])
    (fun x hx => by
      obtain ⟨h1, h2, h3, h4⟩ := hx
      have hx1 : 0 < x.maxSize := by omega
      have hx2 : ¬ (x.list.length : Int) < x.maxSize := by rw [h3]; omega
      have hx3 : ¬ (0 < x.cacheMaxSize ∧ (x.caches.length : Int) < x.cacheMaxSize) := by
        rintro ⟨h5, _⟩
        omega
      rw [push_discard x hx1 hx2 hx3]
      exact ⟨h1, h2, h3, h4⟩)
    k b ⟨rfl, rfl, hl, hcs⟩
  exact ⟨key.2.2.1, key.2.2.2⟩

/-! ## Tokens are held and handed out in generation order -/

lemma returned_push (b : cacheBucket α) (ops : List Op) :
    b.returned (Op.push :: ops) = b.push.returned ops := rfl

lemma returned_Token (b : cacheBucket α) (ops : List Op) :
    b.returned (Op.Token :: ops)
      = (foundValue b.Token.1).toList ++ b.Token.2.returned ops := by
  simp only [cacheBucket.returned, cacheBucket.results, List.filterMap_cons]
  cases foundValue b.Token.1 <;> rfl

lemma push_order (b : cacheBucket α) (handed : List (Tokenizer α)) (h : b.Shaped)
    (ho : InGenerationOrder b.generator b.generated handed b.queue) :
    InGenerationOrder b.push.generator b.push.generated handed b.push.queue := by
  obtain ⟨idx, hs, hb, he⟩ := ho
  rw [push_generator, push_generated, push_queue b h]
  split_ifs with hc
  · refine ⟨idx ++ [b.generated], ?_, ?_, ?_⟩
    · refine List.pairwise_append.2 ⟨hs, List.pairwise_singleton _ _, ?_⟩
      intro i hi j hj
      rw [List.mem_singleton] at hj
      rw [hj]
      exact hb i hi
    · intro i hi
      rcases List.mem_append.1 hi with h1 | h1
      · exact Nat.lt_succ_of_lt (hb i h1)
      · rw [List.mem_singleton] at h1
        rw [h1]
        exact Nat.lt_succ_self _
    · rw [← List.append_assoc, he, List.map_append, List.map_singleton]
  · exact ⟨idx, hs, fun i hi => Nat.lt_succ_of_lt (hb i hi), he⟩

lemma Token_order (b : cacheBucket α) (handed : List (Tokenizer α)) (h : b.Shaped)
    (ho : InGenerationOrder b.generator b.generated handed b.queue) :
    InGenerationOrder b.Token.2.generator b.Token.2.generated
      (handed ++ (foundValue b.Token.1).toList) b.Token.2.queue := by
  obtain ⟨idx, hs, hb, he⟩ := ho
  obtain ⟨h1, h2⟩ := Token_queue b h
  rw [Token_generator, Token_generated, h1, h2]
  refine ⟨idx, hs, hb, ?_⟩
  rw [← he]
  cases b.queue with
  | nil => simp [foundValue]
  | cons a r => simp [foundValue]

lemma run_order : ∀ (ops : List Op) (b : cacheBucket α) (handed : List (Tokenizer α)),
    b.Shaped → InGenerationOrder b.generator b.generated handed b.queue →
    InGenerationOrder (b.run ops).generator (b.run ops).generated
      (handed ++ b.returned ops) (b.run ops).queue
  | [], b, handed, _, ho => by
    simpa [cacheBucket.run, cacheBucket.returned, cacheBucket.results] using ho
  | Op.push :: ops, b, handed, h, ho => by
    rw [returned_push]
    exact run_order ops b.push handed (push_Shaped b h) (push_order b handed h ho)
  | Op.Token :: ops, b, handed, h, ho => by
    rw [returned_Token, ← List.append_assoc]
    exact run_order ops b.Token.2 _ (Token_Shaped b h) (Token_order b handed h ho)

/-- From the constructor on, the tokens handed out so far followed by the tokens held are
generated values in generation order. -/
lemma reachable_order (initSize maxSize cacheMaxSize duration : Int)
    (generator : Nat → Tokenizer α) (event : Option Event) (ops : List Op) :
    InGenerationOrder generator
      ((CacheBucket initSize maxSize cacheMaxSize duration generator event).run ops).generated
      ((CacheBucket initSize maxSize cacheMaxSize duration generator event).returned ops)
      ((CacheBucket initSize maxSize cacheMaxSize duration generator event).run ops).queue := by
  have h0 : (CacheBucket initSize maxSize cacheMaxSize duration generator event).Shaped ∧
      (CacheBucket initSize maxSize cacheMaxSize duration generator event).generator
        = generator ∧
      InGenerationOrder
        (CacheBucket initSize maxSize cacheMaxSize duration generator event).generator
        (CacheBucket initSize maxSize cacheMaxSize duration generator event).generated []
        (CacheBucket initSize maxSize cacheMaxSize duration generator event).queue := by
    rw [CacheBucket_eq]
    refine pushTimes_induction
      (fun x => x.Shaped ∧ x.generator = generator ∧
        InGenerationOrder x.generator x.generated [] x.queue)
      (fun x hx => ⟨push_Shaped x hx.1, by rw [push_generator]; exact hx.2.1,
        push_order x [] hx.1 hx.2.2⟩) _ _ ?_
    exact ⟨fresh_Shaped _ _ _ _ _ _, rfl, [], List.Pairwise.nil, by simp, rfl⟩
  have hg : ((CacheBucket initSize maxSize cacheMaxSize duration generator event).run
      ops).generator = generator :=
    run_induction (fun x => x.generator = generator)
      (fun x hx => (push_generator x).trans hx)
      (fun x hx => (Token_generator x).trans hx) ops _ h0.2.1
  have key := run_order ops _ [] h0.1 h0.2.2
  rw [hg, List.nil_append] at key
  exact key

/-- With an injective generator, tokens in generation order are pairwise distinct. -/
lemma InGenerationOrder.nodup {generator : Nat → Tokenizer α} {n : Nat}
    {handed held : List (Tokenizer α)} (hinj : Function.Injective generator)
    (h : InGenerationOrder generator n handed held) : (handed ++ held).Nodup := by
  obtain ⟨idx, hs, _, he⟩ := h
  rw [he]
  exact List.Nodup.map hinj (List.Sorted.nodup hs)

lemma counter_injective : Function.Injective counter :=
  fun _ _ h => Option.some.inj h

/-- Without overflow room `caches` stays empty. -/
lemma reachable_caches_nil (initSize maxSize cacheMaxSize duration : Int)
    (generator : Nat → Tokenizer α) (event : Option Event) (hc : cacheMaxSize ≤ 0)
    (ops : List Op) :
    ((CacheBucket initSize maxSize cacheMaxSize duration generator event).run ops).caches = [] ∧
    ((CacheBucket initSize maxSize cacheMaxSize duration generator event).run ops).cacheMaxSize
      = cacheMaxSize := by
  refine reachable_induction
    (fun x : cacheBucket α => x.caches = [] ∧ x.cacheMaxSize = cacheMaxSize)
    ?_ ?_ initSize maxSize cacheMaxSize duration generator event ⟨rfl, rfl⟩ ops
  · rintro x ⟨h1, h2⟩
    rcases push_cases x with ⟨lg, _, e⟩ | ⟨lg, hlt, e⟩ | ⟨lg, e⟩
    · rw [e]
      exact ⟨h1, h2⟩
    · rw [h1, h2, List.length_nil] at hlt
      push_cast at hlt
      omega
    · rw [e]
      exact ⟨h1, h2⟩
  · rintro x ⟨h1, h2⟩
    rcases Token_cases x with ⟨_, e⟩ | ⟨a, p, lg, _, _, e⟩ | ⟨a, p, c, o, lg, _, hcs, e⟩
    · rw [e]
      exact ⟨h1, h2⟩
    · rw [e]
      exact ⟨h1, h2⟩
    · rw [h1] at hcs
      cases hcs

/-- The configuration stored by the constructor. -/
lemma CacheBucket_config (initSize maxSize cacheMaxSize duration : Int)
    (generator : Nat → Tokenizer α) (event : Option Event) :
    (CacheBucket initSize maxSize cacheMaxSize duration generator event).maxSize
      = max maxSize 0 ∧
    (CacheBucket initSize maxSize cacheMaxSize duration generator event).cacheMaxSize
      = cacheMaxSize ∧
    (CacheBucket initSize maxSize cacheMaxSize duration generator event).initSize
      = max initSize 0 ∧
    (CacheBucket initSize maxSize cacheMaxSize duration generator event).event = event ∧
    (CacheBucket initSize maxSize cacheMaxSize duration generator event).generator
      = generator := by
  rw [CacheBucket_eq]
  exact pushTimes_config _ _

/-! ## Callbacks that are absent -/

lemma hookLog_OnCreate (event : Option Event) (t : Tokenizer α) :
    hookLog event Event.OnCreate (HookCall.OnCreate t)
      = [HookCall.OnCreate t].filter (entryPresent event) := by
  cases event with
  | none => rfl
  | some e => cases h : e.OnCreate <;> simp [hookLog, entryPresent, HookCall.entry, h]

lemma hookLog_OnSave (event : Option Event) (t : Tokenizer α) :
    hookLog event Event.OnSave (HookCall.OnSave t)
      = [HookCall.OnSave t].filter (entryPresent event) := by
  cases event with
  | none => rfl
  | some e => cases h : e.OnSave <;> simp [hookLog, entryPresent, HookCall.entry, h]

lemma hookLog_OnCache (event : Option Event) (t : Tokenizer α) :
    hookLog event Event.OnCache (HookCall.OnCache t)
      = [HookCall.OnCache t].filter (entryPresent event) := by
  cases event with
  | none => rfl
  | some e => cases h : e.OnCache <;> simp [hookLog, entryPresent, HookCall.entry, h]

lemma hookLog_OnDiscard (event : Option Event) (t : Tokenizer α) :
    hookLog event Event.OnDiscard (HookCall.OnDiscard t)
      = [HookCall.OnDiscard t].filter (entryPresent event) := by
  cases event with
  | none => rfl
  | some e => cases h : e.OnDiscard <;> simp [hookLog, entryPresent, HookCall.entry, h]

lemma hookLog_OnRemove (event : Option Event) (t : Tokenizer α) :
    hookLog event Event.OnRemove (HookCall.OnRemove t)
      = [HookCall.OnRemove t].filter (entryPresent event) := by
  cases event with
  | none => rfl
  | some e => cases h : e.OnRemove <;> simp [hookLog, entryPresent, HookCall.entry, h]

/-- With the full table every callback call is made. -/
lemma entryPresent_full (call : HookCall α) : entryPresent (some Event.full) call = true := by
  cases call <;> rfl

/-- What `push` does to the queues and the log, for any callback table. -/
lemma push_withEvent (b : cacheBucket α) (event : Option Event) :
    ∃ calls : List (HookCall α),
      (b.withEvent event).push.log = b.log ++ calls.filter (entryPresent event) ∧
      (b.withEvent (some Event.full)).push.log = b.log ++ calls ∧
      (b.withEvent event).push.list = (b.withEvent (some Event.full)).push.list ∧
      (b.withEvent event).push.caches = (b.withEvent (some Event.full)).push.caches := by
  have full : ∀ l : List (HookCall α), l.filter (entryPresent (some Event.full)) = l :=
    fun l => List.filter_eq_self.2 (fun c _ => entryPresent_full c)
  by_cases hm : 0 < b.maxSize
  · by_cases hl : (b.list.length : Int) < b.maxSize
    · refine ⟨[HookCall.OnCreate (b.generator b.generated),
        HookCall.OnSave (b.generator b.generated)], ?_⟩
      rw [push_save (b.withEvent event) hm hl, push_save (b.withEvent (some Event.full)) hm hl]
      simp [cacheBucket.withEvent, hookLog_OnCreate, hookLog_OnSave, full,
        List.append_assoc, ← List.filter_append]
    · by_cases hc : 0 < b.cacheMaxSize ∧ (b.caches.length : Int) < b.cacheMaxSize
      · refine ⟨[HookCall.OnCreate (b.generator b.generated),
          HookCall.OnCache (b.generator b.generated)], ?_⟩
        rw [push_cache (b.withEvent event) hm hl hc.1 hc.2,
          push_cache (b.withEvent (some Event.full)) hm hl hc.1 hc.2]
        simp [cacheBucket.withEvent, hookLog_OnCreate, hookLog_OnCache, full,
          List.append_assoc, ← List.filter_append]
      · refine ⟨[HookCall.OnCreate (b.generator b.generated),
          HookCall.OnDiscard (b.generator b.generated)], ?_⟩
        rw [push_discard (b.withEvent event) hm hl hc,
          push_discard (b.withEvent (some Event.full)) hm hl hc]
        simp [cacheBucket.withEvent, hookLog_OnCreate, hookLog_OnDiscard, full,
          List.append_assoc, ← List.filter_append]
  · refine ⟨[], ?_⟩
    rw [push_disabled (b.withEvent event) hm, push_disabled (b.withEvent (some Event.full)) hm]
    simp [cacheBucket.withEvent, List.filter_nil, List.append_nil]

/-- What `Token` returns and does to the queues and the log, for any callback table. -/
lemma Token_withEvent (b : cacheBucket α) (event : Option Event) :
    ∃ calls : List (HookCall α),
      (b.withEvent event).Token.2.log = b.log ++ calls.filter (entryPresent event) ∧
      (b.withEvent (some Event.full)).Token.2.log = b.log ++ calls ∧
      (b.withEvent event).Token.1 = (b.withEvent (some Event.full)).Token.1 ∧
      (b.withEvent event).Token.2.list = (b.withEvent (some Event.full)).Token.2.list ∧
      (b.withEvent event).Token.2.caches = (b.withEvent (some Event.full)).Token.2.caches := by
  have full : ∀ l : List (HookCall α), l.filter (entryPresent (some Event.full)) = l :=
    fun l => List.filter_eq_self.2 (fun c _ => entryPresent_full c)
  cases hl : b.list with
  | nil =>
    refine ⟨[], ?_⟩
    rw [Token_nil (b.withEvent event) hl, Token_nil (b.withEvent (some Event.full)) hl]
    simp [cacheBucket.withEvent, List.filter_nil, List.append_nil]
  | cons a p =>
    refine ⟨[HookCall.OnRemove a], ?_⟩
    cases hc : b.caches with
    | nil =>
      rw [Token_cons_nil (b.withEvent event) a p hl hc,
        Token_cons_nil (b.withEvent (some Event.full)) a p hl hc]
      simp [cacheBucket.withEvent, hookLog_OnRemove, full]
    | cons c o =>
      rw [Token_cons_cons (b.withEvent event) a c p o hl hc,
        Token_cons_cons (b.withEvent (some Event.full)) a c p o hl hc]
      simp [cacheBucket.withEvent, hookLog_OnRemove, full]

/-! ## The two queues behave as one bounded queue -/

lemma push_Simulates (b : cacheBucket α) (q : BoundedQueue α) (h : Simulates b q) :
    Simulates b.push q.replenish := by
  obtain ⟨hs, hm, hcap, hitems, hg, hn⟩ := h
  have hq := push_queue b hs
  refine ⟨push_Shaped b hs, by rw [push_maxSize]; exact hm, ?_, ?_, ?_, ?_⟩
  · rw [push_maxSize, push_cacheMaxSize, ← hcap]
    unfold BoundedQueue.replenish
    split_ifs <;> rfl
  · rw [hq]
    unfold BoundedQueue.replenish
    rw [hitems, hcap, hg, hn]
    by_cases hc : (b.queue.length : Int) < b.maxSize + max b.cacheMaxSize 0
    · rw [if_pos hc, if_pos ⟨hm, hc⟩]
    · rw [if_neg hc, if_neg (fun h3 => hc h3.2)]
  · rw [push_generator, ← hg]
    unfold BoundedQueue.replenish
    split_ifs <;> rfl
  · rw [push_generated, ← hn]
    unfold BoundedQueue.replenish
    split_ifs <;> rfl

lemma Token_Simulates (b : cacheBucket α) (q : BoundedQueue α) (h : Simulates b q) :
    b.Token.1 = q.acquire.1 ∧ Simulates b.Token.2 q.acquire.2 := by
  obtain ⟨hs, hm, hcap, hitems, hg, hn⟩ := h
  obtain ⟨h1, h2⟩ := Token_queue b hs
  have hshape := Token_Shaped b hs
  cases hq : b.queue with
  | nil =>
    rw [hq] at h1 h2 hitems
    have e : q.acquire = ((none, false), q) := by simp [BoundedQueue.acquire, hitems]
    rw [e, h1]
    refine ⟨rfl, hshape, by rw [Token_maxSize]; exact hm, ?_, ?_, ?_, ?_⟩
    · rw [Token_maxSize, Token_cacheMaxSize]
      exact hcap
    · rw [h2]
      exact hitems
    · rw [Token_generator]
      exact hg
    · rw [Token_generated]
      exact hn
  | cons a r =>
    rw [hq] at h1 h2 hitems
    have e : q.acquire = ((a, true), { q with items := r }) := by
      simp [BoundedQueue.acquire, hitems]
    rw [e, h1]
    refine ⟨rfl, hshape, by rw [Token_maxSize]; exact hm, ?_, ?_, ?_, ?_⟩
    · rw [Token_maxSize, Token_cacheMaxSize]
      exact hcap
    · rw [h2]
      rfl
    · rw [Token_generator]
      exact hg
    · rw [Token_generated]
      exact hn

lemma run_Simulates : ∀ (ops : List Op) (b : cacheBucket α) (q : BoundedQueue α),
    Simulates b q → Simulates (b.run ops) (q.run ops) ∧ b.results ops = q.results ops
  | [], _, _, h => ⟨h, rfl⟩
  | Op.push :: ops, b, q, h => run_Simulates ops b.push q.replenish (push_Simulates b q h)
  | Op.Token :: ops, b, q, h => by
    obtain ⟨h1, h2⟩ := Token_Simulates b q h
    obtain ⟨h3, h4⟩ := run_Simulates ops b.Token.2 q.acquire.2 h2
    refine ⟨h3, ?_⟩
    show b.Token.1 :: b.Token.2.results ops = q.acquire.1 :: q.acquire.2.results ops
    rw [h1, h4]

/-- The tokens handed out are an initial part of a list in generation order. -/
lemma InGenerationOrder.handed_sorted {generator : Nat → Tokenizer α} {n : Nat}
    {handed held : List (Tokenizer α)} (h : InGenerationOrder generator n handed held) :
    ∃ idx : List Nat, idx.Sorted (· < ·) ∧ (∀ i ∈ idx, i < n) ∧ handed = idx.map generator := by
  obtain ⟨idx, hs, hb, he⟩ := h
  refine ⟨idx.take handed.length, List.Pairwise.sublist (List.take_sublist _ _) hs,
    fun i hi => hb i (List.mem_of_mem_take hi), ?_⟩
  rw [List.map_take, ← he, List.take_left]

/-! ## `push` and `Token` on one state -/

/-- C1: on an enabled bucket (`maxSize > 0`), `push` classifies the generated token `T` by
the first rule that matches: with `len(list) < maxSize` it is appended to `list` and `caches`
is unchanged; else with `cacheMaxSize > 0` and `len(caches) < cacheMaxSize` it is appended to
`caches` and `list` is unchanged; else both queues are unchanged. -/
theorem push_classification (b : cacheBucket α) (h : 0 < b.maxSize) :
    ((b.list.length : Int) < b.maxSize →
      b.push.list = b.list ++ [b.generator b.generated] ∧ b.push.caches = b.caches) ∧
    (¬ (b.list.length : Int) < b.maxSize →
      (0 < b.cacheMaxSize ∧ (b.caches.length : Int) < b.cacheMaxSize) →
      b.push.caches = b.caches ++ [b.generator b.generated] ∧ b.push.list = b.list) ∧
    (¬ (b.list.length : Int) < b.maxSize →
      ¬ (0 < b.cacheMaxSize ∧ (b.caches.length : Int) < b.cacheMaxSize) →
      b.push.list = b.list ∧ b.push.caches = b.caches) := by
  refine ⟨fun hl => ?_, fun hl hc => ?_, fun hl hc => ?_⟩
  · rw [push_save b h hl]
    exact ⟨rfl, rfl⟩
  · rw [push_cache b h hl hc.1 hc.2]
    exact ⟨rfl, rfl⟩
  · rw [push_discard b h hl hc]
    exact ⟨rfl, rfl⟩

/-- The classification of C1 on the full bucket `list = [0]`, `caches = []` with
`maxSize = 1`, `cacheMaxSize = 1`: the token goes to `caches`. -/
theorem push_classification_witness :
    (0 : Int) < (CacheBucket 1 1 1 1 counter none).maxSize ∧
    (CacheBucket 1 1 1 1 counter none).push.caches = [some 1] ∧
    (CacheBucket 1 1 1 1 counter none).push.list = [some 0] :=
  ⟨by decide,
    ((push_classification (CacheBucket 1 1 1 1 counter none) (by decide)).2.1
      (by decide) (by decide))⟩

/-- C2: when `list = a :: p`, `Token` returns `(a, true)`; afterwards, with
`caches = c :: o` the front of `caches` has moved to the back of `list` (`list = p ++ [c]`,
`caches = o`), and with `caches = []` it is `list = p` and `caches = []`. With `maxSize = 1`
and `cacheMaxSize = 1`, after two `push` calls generating `A` then `B`, the first `Token`
returns `A` and the next one, with no `push` in between, returns `B`. -/
theorem Token_front_and_promotion :
    (∀ (b : cacheBucket α) (a : Tokenizer α) (p : List (Tokenizer α)), b.list = a :: p →
      b.Token.1 = (a, true) ∧
      (∀ c o, b.caches = c :: o → b.Token.2.list = p ++ [c] ∧ b.Token.2.caches = o) ∧
      (b.caches = [] → b.Token.2.list = p ∧ b.Token.2.caches = [])) ∧
    (∀ (duration : Int) (generator : Nat → Tokenizer α) (event : Option Event),
      (CacheBucket 0 1 1 duration generator event).push.push.list = [generator 0] ∧
      (CacheBucket 0 1 1 duration generator event).push.push.caches = [generator 1] ∧
      (CacheBucket 0 1 1 duration generator event).push.push.Token.1 = (generator 0, true) ∧
      (CacheBucket 0 1 1 duration generator event).push.push.Token.2.Token.1
        = (generator 1, true)) := by
  constructor
  · intro b a p h
    refine ⟨?_, fun c o hc => ?_, fun hc => ?_⟩
    · cases hcs : b.caches with
      | nil => rw [Token_cons_nil b a p h hcs]
      | cons c o => rw [Token_cons_cons b a c p o h hcs]
    · rw [Token_cons_cons b a c p o h hc]
      exact ⟨rfl, rfl⟩
    · rw [Token_cons_nil b a p h hc]
      exact ⟨rfl, hc⟩
  · intro duration generator event
    simp [CacheBucket, cacheBucket.push, cacheBucket.Token, onCreate_eq, onSave_eq,
      onCache_eq, onRemove_eq]

/-- C2 on the bucket with `list = [0]` and `caches = [1]`. -/
theorem Token_front_and_promotion_witness :
    (CacheBucket 2 1 1 1 counter none).list = [some 0] ∧
    (CacheBucket 2 1 1 1 counter none).Token.1 = (some 0, true) :=
  ⟨by decide,
    ((Token_front_and_promotion.1 (CacheBucket 2 1 1 1 counter none) (some 0) []
      (by decide)).1)⟩

/-- C3: `Token` returns `found = false` exactly when `list` is empty; the returned value is
then nil and the bucket (both queues, the log of callback calls) is unchanged. On a bucket
just constructed with `initSize = 0` it returns `found = false`. -/
theorem Token_not_found_iff :
    (∀ b : cacheBucket α, (b.Token.1.2 = false ↔ b.list = []) ∧
      (b.list = [] → b.Token.1.1 = none ∧ b.Token.2 = b)) ∧
    (∀ (maxSize cacheMaxSize duration : Int) (generator : Nat → Tokenizer α)
        (event : Option Event),
      (CacheBucket 0 maxSize cacheMaxSize duration generator event).Token.1.2 = false) := by
  constructor
  · intro b
    refine ⟨⟨fun hf => ?_, fun hl => ?_⟩, fun hl => ?_⟩
    · cases hl : b.list with
      | nil => rfl
      | cons a p =>
        cases hcs : b.caches with
        | nil => rw [Token_cons_nil b a p hl hcs] at hf; cases hf
        | cons c o => rw [Token_cons_cons b a c p o hl hcs] at hf; cases hf
    · rw [Token_nil b hl]
    · rw [Token_nil b hl]
      exact ⟨rfl, rfl⟩
  · intro maxSize cacheMaxSize duration generator event
    simp [CacheBucket, cacheBucket.Token]

/-- C3 on the empty bucket built with `initSize = 0`, `maxSize = 2`. -/
theorem Token_not_found_iff_witness :
    (CacheBucket 0 2 1 1 counter none).list = [] ∧
    (CacheBucket 0 2 1 1 counter none).Token.1.1 = none ∧
    (CacheBucket 0 2 1 1 counter none).Token.2 = CacheBucket 0 2 1 1 counter none :=
  ⟨by decide,
    ((Token_not_found_iff.1 (CacheBucket 0 2 1 1 counter none)).2 (by decide))⟩

/-! ## Capacity invariants -/

/-- C4: for every configuration given to `CacheBucket` and every finite sequence of `push`
and `Token` operations on the constructed bucket, `len(list) ≤ maxSize` holds after
construction and after every operation, `maxSize` being the clamped value `max maxSize 0`
that the bucket stores. -/
theorem list_length_le_maxSize (initSize maxSize cacheMaxSize duration : Int)
    (generator : Nat → Tokenizer α) (event : Option Event) :
    ((CacheBucket initSize maxSize cacheMaxSize duration generator event).list.length : Int)
      ≤ max maxSize 0 ∧
    ∀ ops : List Op,
      ((CacheBucket initSize maxSize cacheMaxSize duration generator event).run ops).maxSize
        = max maxSize 0 ∧
      (((CacheBucket initSize maxSize cacheMaxSize duration generator event).run ops).list.length
        : Int) ≤ max maxSize 0 := by
  have key : ∀ ops : List Op,
      ((CacheBucket initSize maxSize cacheMaxSize duration generator event).run ops).maxSize
        = max maxSize 0 ∧
      (((CacheBucket initSize maxSize cacheMaxSize duration generator event).run ops).list.length
        : Int) ≤ max maxSize 0 := by
    intro ops
    refine reachable_induction
      (fun b => b.maxSize = max maxSize 0 ∧ (b.list.length : Int) ≤ max maxSize 0)
      ?_ ?_ initSize maxSize cacheMaxSize duration generator event ?_ ops
    · rintro b ⟨hm, hl⟩
      refine ⟨by rw [push_maxSize, hm], ?_⟩
      rw [← hm] at hl ⊢
      exact push_list_le b hl
    · rintro b ⟨hm, hl⟩
      refine ⟨by rw [Token_maxSize, hm], ?_⟩
      rw [← hm] at hl ⊢
      exact Token_list_le b hl
    · refine ⟨rfl, ?_⟩
      simp [CacheBucket.fresh]
  exact ⟨(key []).2, key⟩

/-- The claim that `len(caches) ≤ cacheMaxSize` for any integer `cacheMaxSize` fails for a
negative one: built with `cacheMaxSize = -1`, the bucket has `len(caches) = 0 > -1`. -/
theorem caches_length_le_cacheMaxSize_fails :
    (CacheBucket 0 1 (-1) 1 counter none).cacheMaxSize = -1 ∧
    ¬ (((CacheBucket 0 1 (-1) 1 counter none).caches.length : Int)
      ≤ (CacheBucket 0 1 (-1) 1 counter none).cacheMaxSize) := by
  decide

/-- C5 (amended): for every configuration given to `CacheBucket`, `cacheMaxSize` being any
integer (it is stored as given), and every finite sequence of `push` and `Token` operations
on the constructed bucket, `len(caches) ≤ max(cacheMaxSize, 0)` holds after construction and
after every operation. -/
theorem caches_length_le_max_cacheMaxSize (initSize maxSize cacheMaxSize duration : Int)
    (generator : Nat → Tokenizer α) (event : Option Event) :
    ((CacheBucket initSize maxSize cacheMaxSize duration generator event).caches.length : Int)
      ≤ max cacheMaxSize 0 ∧
    ∀ ops : List Op,
      ((CacheBucket initSize maxSize cacheMaxSize duration generator event).run ops).cacheMaxSize
        = cacheMaxSize ∧
      (((CacheBucket initSize maxSize cacheMaxSize duration generator event).run
        ops).caches.length : Int) ≤ max cacheMaxSize 0 := by
  have key : ∀ ops : List Op,
      ((CacheBucket initSize maxSize cacheMaxSize duration generator event).run ops).cacheMaxSize
        = cacheMaxSize ∧
      (((CacheBucket initSize maxSize cacheMaxSize duration generator event).run
        ops).caches.length : Int) ≤ max cacheMaxSize 0 := by
    intro ops
    refine reachable_induction
      (fun b => b.cacheMaxSize = cacheMaxSize ∧ (b.caches.length : Int) ≤ max cacheMaxSize 0)
      ?_ ?_ initSize maxSize cacheMaxSize duration generator event ?_ ops
    · rintro b ⟨hm, hl⟩
      refine ⟨by rw [push_cacheMaxSize, hm], ?_⟩
      rw [← hm] at hl ⊢
      exact push_caches_le b hl
    · rintro b ⟨hm, hl⟩
      refine ⟨by rw [Token_cacheMaxSize, hm], ?_⟩
      rw [← hm] at hl ⊢
      exact Token_caches_le b hl
    · refine ⟨rfl, ?_⟩
      simp [CacheBucket.fresh]
  exact ⟨(key []).2, key⟩

/-! ## The disabled bucket -/

/-- On a disabled bucket the generator is called all the same: built with `initSize = 2` and
`maxSize = 0`, the constructor has made two calls of `Generate`, and one more `push` makes a
third. -/
theorem disabled_push_calls_generator :
    (CacheBucket 2 0 0 1 counter none).maxSize = 0 ∧
    (CacheBucket 2 0 0 1 counter none).generated = 2 ∧
    (CacheBucket 2 0 0 1 counter none).push.generated = 3 := by
  decide

/-- C6 (amended): on a disabled bucket (`maxSize = 0` after clamping) every `push` makes
exactly one call of `generator.Generate` and changes nothing else (the generated value is
dropped); so do the calls made by the pre-warm loop of `CacheBucket`, which makes
`max initSize 0` of them, and after any sequence of operations the number of calls made is
`max initSize 0` plus the number of `push` operations. -/
theorem disabled_push_generates_once :
    (∀ b : cacheBucket α, b.maxSize ≤ 0 →
      b.push = { b with generated := b.generated + 1 }) ∧
    (∀ (initSize maxSize cacheMaxSize duration : Int) (generator : Nat → Tokenizer α)
        (event : Option Event), maxSize ≤ 0 →
      (CacheBucket initSize maxSize cacheMaxSize duration generator event).maxSize = 0 ∧
      (CacheBucket initSize maxSize cacheMaxSize duration generator event).generated
        = (max initSize 0).toNat ∧
      ∀ ops : List Op,
        ((CacheBucket initSize maxSize cacheMaxSize duration generator event).run ops).generated
          = (max initSize 0).toNat + ops.count Op.push) := by
  constructor
  · intro b h
    exact push_disabled b (by omega)
  · intro initSize maxSize cacheMaxSize duration generator event h
    have hgen : (CacheBucket initSize maxSize cacheMaxSize duration generator event).generated
        = (max initSize 0).toNat := by
      rw [CacheBucket_eq, pushTimes_generated]
      simp [CacheBucket.fresh]
    refine ⟨?_, hgen, ?_⟩
    · rw [CacheBucket_eq]
      refine pushTimes_induction (fun b => b.maxSize = 0) ?_ _ _ ?_
      · intro b hb
        rw [push_maxSize, hb]
      · simp only [CacheBucket.fresh]
        omega
    · intro ops
      rw [← hgen]
      generalize CacheBucket initSize maxSize cacheMaxSize duration generator event = b
      induction ops generalizing b with
      | nil => simp [cacheBucket.run]
      | cons op ops ih =>
        have hstep : b.run (op :: ops) = (b.step op).run ops := rfl
        rw [hstep, ih]
        cases op with
        | push =>
          simp only [cacheBucket.step, push_generated, List.count_cons_self]
          omega
        | Token =>
          simp [cacheBucket.step, List.count_cons]

/-- C6 (amended) on the bucket built with `initSize = 2`, `maxSize = -1`. -/
theorem disabled_push_generates_once_witness :
    (-1 : Int) ≤ 0 ∧
    (CacheBucket 2 (-1) 0 1 counter none).maxSize = 0 ∧
    (CacheBucket 2 (-1) 0 1 counter none).generated = (max (2 : Int) 0).toNat ∧
    ∀ ops : List Op,
      ((CacheBucket 2 (-1) 0 1 counter none).run ops).generated
        = (max (2 : Int) 0).toNat + ops.count Op.push :=
  ⟨by decide, disabled_push_generates_once.2 2 (-1) 0 1 counter none (by decide)⟩

/-- C7: a bucket built with `maxSize ≤ 0` (any `initSize` and `cacheMaxSize`) has, after
construction and after any sequence of `push` (and `Token`) operations, both `list` and
`caches` empty and no callback called, and `Token` on it returns `(nil, false)`. -/
theorem disabled_stays_empty (initSize maxSize cacheMaxSize duration : Int)
    (generator : Nat → Tokenizer α) (event : Option Event) (h : maxSize ≤ 0)
    (ops : List Op) :
    ((CacheBucket initSize maxSize cacheMaxSize duration generator event).run ops).list = [] ∧
    ((CacheBucket initSize maxSize cacheMaxSize duration generator event).run ops).caches = [] ∧
    ((CacheBucket initSize maxSize cacheMaxSize duration generator event).run ops).log = [] ∧
    ((CacheBucket initSize maxSize cacheMaxSize duration generator event).run ops).Token.1
      = (none, false) := by
  have key := reachable_induction
    (fun b : cacheBucket α => b.maxSize = 0 ∧ b.list = [] ∧ b.caches = [] ∧ b.log = [])
    (by
      rintro b ⟨hm, hl, hc, hg⟩
      rw [push_disabled b (by omega)]
      exact ⟨hm, hl, hc, hg⟩)
    (by
      rintro b ⟨hm, hl, hc, hg⟩
      rw [Token_nil b hl]
      exact ⟨hm, hl, hc, hg⟩)
    initSize maxSize cacheMaxSize duration generator event
    (by
      refine ⟨?_, rfl, rfl, rfl⟩
      simp only [CacheBucket.fresh]
      omega)
    ops
  obtain ⟨_, hl, hc, hg⟩ := key
  refine ⟨hl, hc, hg, ?_⟩
  rw [Token_nil _ hl]

/-- C7 on the bucket built with `initSize = 3`, `maxSize = 0`, `cacheMaxSize = 2` and all
callbacks present, after three more `push` calls. -/
theorem disabled_stays_empty_witness :
    (0 : Int) ≤ 0 ∧
    ((CacheBucket 3 0 2 1 counter (some Event.full)).run [Op.push, Op.push, Op.push]).list = [] ∧
    ((CacheBucket 3 0 2 1 counter (some Event.full)).run [Op.push, Op.push, Op.push]).caches = [] ∧
    ((CacheBucket 3 0 2 1 counter (some Event.full)).run [Op.push, Op.push, Op.push]).log = [] ∧
    ((CacheBucket 3 0 2 1 counter (some Event.full)).run [Op.push, Op.push, Op.push]).Token.1
      = (none, false) :=
  ⟨by decide,
    disabled_stays_empty 3 0 2 1 counter (some Event.full) (by decide)
      [Op.push, Op.push, Op.push]⟩

/-! ## Callbacks -/

/-- C8: on an enabled bucket (`maxSize > 0`) with all five callbacks present, one `push`
generating `T` makes exactly two callback calls, in this order: `OnCreate(T)`, then the one of
`OnSave(T)`, `OnCache(T)`, `OnDiscard(T)` that matches the branch taken for `T`; `OnRemove` is
not called. -/
theorem push_hooks (b : cacheBucket α) (h : 0 < b.maxSize) (he : b.event = some Event.full) :
    b.push.log = b.log ++
      [HookCall.OnCreate (b.generator b.generated),
        if (b.list.length : Int) < b.maxSize then
          HookCall.OnSave (b.generator b.generated)
        else if 0 < b.cacheMaxSize ∧ (b.caches.length : Int) < b.cacheMaxSize then
          HookCall.OnCache (b.generator b.generated)
        else
          HookCall.OnDiscard (b.generator b.generated)] := by
  by_cases hl : (b.list.length : Int) < b.maxSize
  · rw [push_save b h hl, if_pos hl]
    simp [he, hookLog, Event.full]
  · rw [if_neg hl]
    by_cases hc : 0 < b.cacheMaxSize ∧ (b.caches.length : Int) < b.cacheMaxSize
    · rw [push_cache b h hl hc.1 hc.2, if_pos hc]
      simp [he, hookLog, Event.full]
    · rw [push_discard b h hl hc, if_neg hc]
      simp [he, hookLog, Event.full]

/-- C8 on the full bucket `list = [0]`, `caches = []` with `maxSize = 1`, `cacheMaxSize = 0`:
the second generated value is created, then discarded. -/
theorem push_hooks_witness :
    (0 : Int) < (CacheBucket 1 1 0 1 counter (some Event.full)).maxSize ∧
    (CacheBucket 1 1 0 1 counter (some Event.full)).event = some Event.full ∧
    (CacheBucket 1 1 0 1 counter (some Event.full)).push.log
      = [HookCall.OnCreate (some 0), HookCall.OnSave (some 0),
          HookCall.OnCreate (some 1), HookCall.OnDiscard (some 1)] :=
  ⟨by decide, by decide,
    (push_hooks (CacheBucket 1 1 0 1 counter (some Event.full)) (by decide) (by decide)).trans
      (by decide)⟩

/-- C9: with `list = a :: p` and all callbacks present, `Token` returns `(a, true)` and makes
exactly one callback call, `OnRemove(a)`, whether `caches` is empty or its front is moved to
`list`; the move itself calls no callback. -/
theorem Token_hooks (b : cacheBucket α) (a : Tokenizer α) (p : List (Tokenizer α))
    (h : b.list = a :: p) (he : b.event = some Event.full) :
    b.Token.1 = (a, true) ∧ b.Token.2.log = b.log ++ [HookCall.OnRemove a] := by
  cases hc : b.caches with
  | nil =>
    rw [Token_cons_nil b a p h hc]
    simp [he, hookLog, Event.full]
  | cons c o =>
    rw [Token_cons_cons b a c p o h hc]
    simp [he, hookLog, Event.full]

/-- C9 on the bucket with `list = [0]`, `caches = [1]`: the front of `caches` is moved and
only `OnRemove(0)` is added to the log. -/
theorem Token_hooks_witness :
    (CacheBucket 2 1 1 1 counter (some Event.full)).list = [some 0] ∧
    (CacheBucket 2 1 1 1 counter (some Event.full)).caches = [some 1] ∧
    (CacheBucket 2 1 1 1 counter (some Event.full)).Token.2.list = [some 1] ∧
    (CacheBucket 2 1 1 1 counter (some Event.full)).Token.2.log
      = (CacheBucket 2 1 1 1 counter (some Event.full)).log ++ [HookCall.OnRemove (some 0)] :=
  ⟨by decide, by decide, by decide,
    (Token_hooks (CacheBucket 2 1 1 1 counter (some Event.full)) (some 0) []
      (by decide) (by decide)).2⟩

/-! ## Pre-warming by the constructor -/

/-- C10: for an enabled configuration with `0 ≤ initSize ≤ maxSize`, the bucket returned by
`CacheBucket` (before any background `push`) holds in `list` exactly the first `initSize`
generated values, in generation order, and `caches` is empty; with `initSize = 3` and
`maxSize = 5` this gives `len(list) = 3`. For every configuration
`len(list) = min(max(initSize, 0), max(maxSize, 0))`. -/
theorem CacheBucket_prewarm (initSize maxSize cacheMaxSize duration : Int)
    (generator : Nat → Tokenizer α) (event : Option Event) :
    (0 < maxSize → 0 ≤ initSize → initSize ≤ maxSize →
      (CacheBucket initSize maxSize cacheMaxSize duration generator event).list
        = (List.range initSize.toNat).map generator ∧
      (CacheBucket initSize maxSize cacheMaxSize duration generator event).caches = []) ∧
    (CacheBucket 3 5 cacheMaxSize duration generator event).list.length = 3 ∧
    ((CacheBucket initSize maxSize cacheMaxSize duration generator event).list.length : Int)
      = min (max initSize 0) (max maxSize 0) := by
  have room : ∀ i m : Int, 0 < m → 0 ≤ i → i ≤ m →
      (CacheBucket i m cacheMaxSize duration generator event).list
        = (List.range i.toNat).map generator ∧
      (CacheBucket i m cacheMaxSize duration generator event).caches = [] := by
    intro i m hm hi him
    have hi0 : max i 0 = i := by omega
    have h := pushTimes_list_of_room (max i 0).toNat
      (CacheBucket.fresh i m cacheMaxSize duration generator event)
      (by simp only [CacheBucket.fresh]; omega)
      (by simp only [CacheBucket.fresh, List.length_nil]; push_cast; omega)
    rw [← CacheBucket_eq] at h
    rw [hi0] at h
    simpa [CacheBucket.fresh] using h
  refine ⟨room initSize maxSize, ?_, ?_⟩
  · rw [(room 3 5 (by decide) (by decide) (by decide)).1]
    simp
  · rw [CacheBucket_eq, pushTimes_list_length]
    simp only [CacheBucket.fresh, List.length_nil]
    push_cast
    omega

/-- C10 at `initSize = 3`, `maxSize = 5`: `list` holds the first three generated values. -/
theorem CacheBucket_prewarm_witness :
    (0 : Int) < 5 ∧ (0 : Int) ≤ 3 ∧ (3 : Int) ≤ 5 ∧
    (CacheBucket 3 5 2 1 counter none).list = (List.range (3 : Int).toNat).map counter ∧
    (CacheBucket 3 5 2 1 counter none).caches = [] :=
  ⟨by decide, by decide, by decide,
    (CacheBucket_prewarm 3 5 2 1 counter none).1 (by decide) (by decide) (by decide)⟩

/-! ## The discard path -/

/-- C11: with `maxSize ≥ 1` and `cacheMaxSize ≤ 0`, let `b` be the bucket built empty and
then given `maxSize + k` calls of `push`. Its `list` is the first `maxSize` generated values
and `caches` is empty, whatever `k` is, so the calls after the first `maxSize` changed neither
queue. The next `push` generates value number `maxSize + k`, calls `OnCreate` and `OnDiscard`
on it (each when present) and changes neither queue. From `b`, successive `Token` calls
return the first `maxSize` generated values in order and then `(nil, false)`. -/
theorem discard_path (maxSize cacheMaxSize duration : Int) (generator : Nat → Tokenizer α)
    (event : Option Event) (hm : 1 ≤ maxSize) (hc : cacheMaxSize ≤ 0) (k : Nat)
    (b : cacheBucket α)
    (hb : b = (CacheBucket 0 maxSize cacheMaxSize duration generator event).pushTimes
      (maxSize.toNat + k)) :
    b.list = (List.range maxSize.toNat).map generator ∧
    b.caches = [] ∧
    b.generator b.generated = generator (maxSize.toNat + k) ∧
    b.push = (CacheBucket 0 maxSize cacheMaxSize duration generator event).pushTimes
      (maxSize.toNat + k + 1) ∧
    b.push.list = b.list ∧
    b.push.caches = b.caches ∧
    b.push.log = b.log
      ++ hookLog event Event.OnCreate (HookCall.OnCreate (generator (maxSize.toNat + k)))
      ++ hookLog event Event.OnDiscard (HookCall.OnDiscard (generator (maxSize.toNat + k))) ∧
    ∀ j : Nat, b.results (List.replicate (maxSize.toNat + j) Op.Token)
      = (List.range maxSize.toNat).map (fun i => (generator i, true))
        ++ List.replicate j (none, false) := by
  have hmax : max maxSize 0 = maxSize := by omega
  have fM : (CacheBucket.fresh 0 maxSize cacheMaxSize duration generator event).maxSize
      = maxSize := hmax
  have fC : (CacheBucket.fresh 0 maxSize cacheMaxSize duration generator event).cacheMaxSize
      = cacheMaxSize := rfl
  have fL : (CacheBucket.fresh 0 maxSize cacheMaxSize duration generator event).list = [] := rfl
  have fG : (CacheBucket.fresh 0 maxSize cacheMaxSize duration generator event).generator
      = generator := rfl
  have fN : (CacheBucket.fresh 0 maxSize cacheMaxSize duration generator event).generated
      = 0 := rfl
  have fE : (CacheBucket.fresh 0 maxSize cacheMaxSize duration generator event).event
      = event := rfl
  have fK : (CacheBucket.fresh 0 maxSize cacheMaxSize duration generator event).caches
      = [] := rfl
  have hcfg := pushTimes_config (maxSize.toNat + k)
    (CacheBucket.fresh 0 maxSize cacheMaxSize duration generator event)
  have hgen := pushTimes_generated (maxSize.toNat + k)
    (CacheBucket.fresh 0 maxSize cacheMaxSize duration generator event)
  have hroom := pushTimes_list_of_room maxSize.toNat
    (CacheBucket.fresh 0 maxSize cacheMaxSize duration generator event)
    (by rw [fM]; omega)
    (by rw [fM, fL, List.length_nil]; push_cast; omega)
  have hcfgm := pushTimes_config maxSize.toNat
    (CacheBucket.fresh 0 maxSize cacheMaxSize duration generator event)
  rw [fM, fC, fE, fG] at hcfg hcfgm
  rw [fN, Nat.zero_add] at hgen
  rw [fL, fG, fN, fK, List.nil_append] at hroom
  simp only [Nat.zero_add] at hroom
  have hfull := pushTimes_full ((List.range maxSize.toNat).map generator) k
    ((CacheBucket.fresh 0 maxSize cacheMaxSize duration generator event).pushTimes
      maxSize.toNat)
    (by rw [hcfgm.1]; omega) (by rw [hcfgm.2.1]; exact hc) hroom.1
    (by rw [hcfgm.1, List.length_map, List.length_range]; omega) hroom.2
  rw [← pushTimes_add, ← CacheBucket_zero, ← hb] at hfull
  rw [← CacheBucket_zero, ← hb] at hcfg hgen
  obtain ⟨hlist, hcaches⟩ := hfull
  obtain ⟨hmS, hcS, _, hev, hg⟩ := hcfg
  have h1 : 0 < b.maxSize := by omega
  have h2 : ¬ (b.list.length : Int) < b.maxSize := by
    rw [hlist, List.length_map, List.length_range]
    omega
  have h3 : ¬ (0 < b.cacheMaxSize ∧ (b.caches.length : Int) < b.cacheMaxSize) := by
    rintro ⟨h4, _⟩
    omega
  have hpush := push_discard b h1 h2 h3
  refine ⟨hlist, hcaches, by rw [hg, hgen], ?_, by rw [hpush], by rw [hpush], ?_, ?_⟩
  · rw [pushTimes_succ, ← hb]
  · rw [hpush]
    simp only [hev, hg, hgen]
  · intro j
    have hd := results_drain j b.list b rfl hcaches
    rw [hlist, List.length_map, List.length_range, List.map_map] at hd
    exact hd

/-- C11 at `maxSize = 1`, `cacheMaxSize = 0` with two calls of `push`: the second generated
value was created and discarded, and `Token` returns the first value and then nothing. -/
theorem discard_path_witness :
    (1 : Int) ≤ 1 ∧ (0 : Int) ≤ 0 ∧
    ((CacheBucket 0 1 0 1 counter (some Event.full)).pushTimes ((1 : Int).toNat + 1)).log
      = [HookCall.OnCreate (some 0), HookCall.OnSave (some 0),
          HookCall.OnCreate (some 1), HookCall.OnDiscard (some 1)] ∧
    ∀ j : Nat,
      ((CacheBucket 0 1 0 1 counter (some Event.full)).pushTimes
          ((1 : Int).toNat + 1)).results (List.replicate ((1 : Int).toNat + j) Op.Token)
        = (List.range (1 : Int).toNat).map (fun i => (counter i, true))
          ++ List.replicate j (none, false) :=
  ⟨by decide, by decide, by decide,
    (discard_path 1 0 1 counter (some Event.full) (by decide) (by decide) 1 _ rfl).2.2.2.2.2.2.2⟩

/-! ## Distinct tokens -/

/-- C12: in the sequential model, when the generator returns pairwise distinct values, then
after every sequence of `push` and `Token` operations on a constructed bucket no token is
held twice in `list ++ caches`, no token was returned by two successful `Token` calls, and
every token returned by a successful `Token` call is in neither queue. -/
theorem tokens_distinct (initSize maxSize cacheMaxSize duration : Int)
    (generator : Nat → Tokenizer α) (event : Option Event)
    (hinj : Function.Injective generator) (ops : List Op) :
    (((CacheBucket initSize maxSize cacheMaxSize duration generator event).run ops).list
      ++ ((CacheBucket initSize maxSize cacheMaxSize duration generator event).run
        ops).caches).Nodup ∧
    ((CacheBucket initSize maxSize cacheMaxSize duration generator event).returned ops).Nodup ∧
    ∀ t ∈ (CacheBucket initSize maxSize cacheMaxSize duration generator event).returned ops,
      t ∉ ((CacheBucket initSize maxSize cacheMaxSize duration generator event).run ops).list ∧
      t ∉ ((CacheBucket initSize maxSize cacheMaxSize duration generator event).run
        ops).caches := by
  have h := (reachable_order initSize maxSize cacheMaxSize duration generator event ops).nodup
    hinj
  obtain ⟨h1, h2, h3⟩ := List.nodup_append.1 h
  refine ⟨h2, h1, fun t ht => ⟨fun hl => ?_, fun hc => ?_⟩⟩
  · exact h3 ht (List.mem_append_left _ hl)
  · exact h3 ht (List.mem_append_right _ hc)

/-- C12 with the generator `counter` on the bucket holding `list = [0]`, `caches = [1]`:
`Token`, `push`, `Token` return the distinct values `0` and `1`. -/
theorem tokens_distinct_witness :
    Function.Injective counter ∧
    (CacheBucket 2 1 1 1 counter none).returned [Op.Token, Op.push, Op.Token]
      = [some 0, some 1] ∧
    ((CacheBucket 2 1 1 1 counter none).returned [Op.Token, Op.push, Op.Token]).Nodup :=
  ⟨counter_injective, by decide,
    (tokens_distinct 2 1 1 1 counter none counter_injective
      [Op.Token, Op.push, Op.Token]).2.1⟩

/-! ## Overflow disabled -/

/-- C13: on a bucket built with `cacheMaxSize ≤ 0`, after every sequence of `push` and
`Token` operations `caches` is empty, and a `push` made while `len(list) = maxSize` stores
its generated value in neither queue; on an enabled bucket that `push` calls `OnCreate` and
then `OnDiscard` on the value (each when present). -/
theorem overflow_disabled (initSize maxSize cacheMaxSize duration : Int)
    (generator : Nat → Tokenizer α) (event : Option Event) (hc : cacheMaxSize ≤ 0)
    (ops : List Op) (b : cacheBucket α)
    (hb : b = (CacheBucket initSize maxSize cacheMaxSize duration generator event).run ops) :
    b.caches = [] ∧
    ((b.list.length : Int) = b.maxSize →
      b.push.list = b.list ∧ b.push.caches = [] ∧
      (0 < b.maxSize → b.push.log = b.log
        ++ hookLog b.event Event.OnCreate (HookCall.OnCreate (b.generator b.generated))
        ++ hookLog b.event Event.OnDiscard (HookCall.OnDiscard (b.generator b.generated)))) := by
  obtain ⟨h1, h2⟩ := reachable_caches_nil initSize maxSize cacheMaxSize duration generator
    event hc ops
  rw [← hb] at h1 h2
  refine ⟨h1, fun hfull => ?_⟩
  by_cases hm : 0 < b.maxSize
  · have hl : ¬ (b.list.length : Int) < b.maxSize := by omega
    have hcc : ¬ (0 < b.cacheMaxSize ∧ (b.caches.length : Int) < b.cacheMaxSize) := by
      rintro ⟨h3, _⟩
      omega
    rw [push_discard b hm hl hcc]
    exact ⟨rfl, h1, fun _ => rfl⟩
  · rw [push_disabled b hm]
    exact ⟨rfl, h1, fun h3 => absurd h3 hm⟩

/-- C13 at `maxSize = 1`, `cacheMaxSize = 0` on the full bucket `list = [0]`: the next
`push` creates and discards the value `1`. -/
theorem overflow_disabled_witness :
    (0 : Int) ≤ 0 ∧
    (CacheBucket 1 1 0 1 counter (some Event.full)).list = [some 0] ∧
    (CacheBucket 1 1 0 1 counter (some Event.full)).push.log
      = [HookCall.OnCreate (some 0), HookCall.OnSave (some 0),
          HookCall.OnCreate (some 1), HookCall.OnDiscard (some 1)] ∧
    (CacheBucket 1 1 0 1 counter (some Event.full)).caches = [] ∧
    (CacheBucket 1 1 0 1 counter (some Event.full)).push.list
      = (CacheBucket 1 1 0 1 counter (some Event.full)).list :=
  ⟨by decide, by decide, by decide,
    (overflow_disabled 1 1 0 1 counter (some Event.full) (by decide) [] _ rfl).1,
    ((overflow_disabled 1 1 0 1 counter (some Event.full) (by decide) [] _ rfl).2
      (by decide)).1⟩

/-! ## Configuration -/

/-- C14: for all integer inputs `CacheBucket` returns a bucket (the constructor is total)
that stores `initSize = max(initSize, 0)`, `maxSize = max(maxSize, 0)` and `cacheMaxSize`
exactly as given. -/
theorem CacheBucket_normalizes (initSize maxSize cacheMaxSize duration : Int)
    (generator : Nat → Tokenizer α) (event : Option Event) :
    (CacheBucket initSize maxSize cacheMaxSize duration generator event).initSize
      = max initSize 0 ∧
    (CacheBucket initSize maxSize cacheMaxSize duration generator event).maxSize
      = max maxSize 0 ∧
    (CacheBucket initSize maxSize cacheMaxSize duration generator event).cacheMaxSize
      = cacheMaxSize := by
  obtain ⟨h1, h2, h3, _, _⟩ :=
    CacheBucket_config initSize maxSize cacheMaxSize duration generator event
  exact ⟨h3, h1, h2⟩

/-! ## Absent callbacks -/

/-- C15: for every callback configuration `event` (no table, or a table with any of its five
entries absent) and every bucket state, `Token` and `push` are defined and give the same
returned pair and the same `list` and `caches` as with the full table; the callback calls
made are those of the full table whose entry is present, in the same order. -/
theorem hooks_optional (b : cacheBucket α) (event : Option Event) :
    (b.withEvent event).Token.1 = (b.withEvent (some Event.full)).Token.1 ∧
    (b.withEvent event).Token.2.list = (b.withEvent (some Event.full)).Token.2.list ∧
    (b.withEvent event).Token.2.caches = (b.withEvent (some Event.full)).Token.2.caches ∧
    (b.withEvent event).push.list = (b.withEvent (some Event.full)).push.list ∧
    (b.withEvent event).push.caches = (b.withEvent (some Event.full)).push.caches ∧
    (b.withEvent event).Token.2.log = b.log ++
      (((b.withEvent (some Event.full)).Token.2.log).drop b.log.length).filter
        (entryPresent event) ∧
    (b.withEvent event).push.log = b.log ++
      (((b.withEvent (some Event.full)).push.log).drop b.log.length).filter
        (entryPresent event) := by
  obtain ⟨c1, t1, t2, t3, t4, t5⟩ := Token_withEvent b event
  obtain ⟨c2, p1, p2, p3, p4⟩ := push_withEvent b event
  refine ⟨t3, t4, t5, p3, p4, ?_, ?_⟩
  · rw [t1, t2, List.drop_left]
  · rw [p1, p2, List.drop_left]

/-! ## Refinement of a single bounded queue -/

/-- C17: for `maxSize > 0`, the bucket built empty and the single bounded FIFO queue of
capacity `maxSize + max(cacheMaxSize, 0)` stay related by `Q = list ++ caches` under every
sequence of `push` and `Token` operations, and their `Token` calls return the same pairs. At
the bucket `b` reached, `push` appends its generated value to `list ++ caches` exactly when
`len(list ++ caches) < capacity`, and `Token` returns and removes the front of
`list ++ caches`. The values handed out are generated values at strictly increasing call
numbers, that is, in generation order. -/
theorem two_tier_refines_bounded_queue (maxSize cacheMaxSize duration : Int)
    (generator : Nat → Tokenizer α) (event : Option Event) (h : 0 < maxSize)
    (ops : List Op) (b : cacheBucket α)
    (hb : b = (CacheBucket 0 maxSize cacheMaxSize duration generator event).run ops) :
    ((BoundedQueue.empty (maxSize + max cacheMaxSize 0) generator).run ops).items
      = b.list ++ b.caches ∧
    (CacheBucket 0 maxSize cacheMaxSize duration generator event).results ops
      = (BoundedQueue.empty (maxSize + max cacheMaxSize 0) generator).results ops ∧
    (b.push.list ++ b.push.caches =
      if ((b.list ++ b.caches).length : Int) < maxSize + max cacheMaxSize 0 then
        (b.list ++ b.caches) ++ [b.generator b.generated]
      else b.list ++ b.caches) ∧
    (b.Token.1 = (match b.list ++ b.caches with
      | [] => (none, false)
      | a :: _ => (a, true))) ∧
    b.Token.2.list ++ b.Token.2.caches = (b.list ++ b.caches).tail ∧
    ∃ idx : List Nat, idx.Sorted (· < ·) ∧
      (CacheBucket 0 maxSize cacheMaxSize duration generator event).returned ops
        = idx.map generator := by
  have hmax : max maxSize 0 = maxSize := by omega
  have h0 : Simulates (CacheBucket 0 maxSize cacheMaxSize duration generator event)
      (BoundedQueue.empty (maxSize + max cacheMaxSize 0) generator) := by
    rw [CacheBucket_zero]
    refine ⟨fresh_Shaped _ _ _ _ _ _, ?_, ?_, rfl, rfl, rfl⟩
    · show 0 < max maxSize 0
      omega
    · show maxSize + max cacheMaxSize 0 = max maxSize 0 + max cacheMaxSize 0
      rw [hmax]
  obtain ⟨⟨hs, hm, hcap, hitems, _, _⟩, hres⟩ := run_Simulates ops _ _ h0
  rw [← hb] at hs hm hcap hitems
  have hM : b.maxSize = maxSize := by
    rw [hb]
    exact (run_induction (fun x : cacheBucket α => x.maxSize = maxSize)
      (fun x hx => (push_maxSize x).trans hx) (fun x hx => (Token_maxSize x).trans hx) ops _
      ((CacheBucket_config 0 maxSize cacheMaxSize duration generator event).1.trans hmax))
  have hC : b.cacheMaxSize = cacheMaxSize := by
    rw [hb]
    exact (run_induction (fun x : cacheBucket α => x.cacheMaxSize = cacheMaxSize)
      (fun x hx => (push_cacheMaxSize x).trans hx)
      (fun x hx => (Token_cacheMaxSize x).trans hx) ops _
      (CacheBucket_config 0 maxSize cacheMaxSize duration generator event).2.1)
  have hpq := push_queue b hs
  obtain ⟨ht1, ht2⟩ := Token_queue b hs
  have hord := (reachable_order 0 maxSize cacheMaxSize duration generator event
    ops).handed_sorted
  obtain ⟨idx, hsorted, _, hret⟩ := hord
  refine ⟨hitems, hres, ?_, ht1, ht2, idx, hsorted, hret⟩
  rw [hM, hC] at hpq
  by_cases hc : ((b.list ++ b.caches).length : Int) < maxSize + max cacheMaxSize 0
  · rw [if_pos hc]
    rw [if_pos ⟨h, hc⟩] at hpq
    exact hpq
  · rw [if_neg hc]
    rw [if_neg (fun h3 => hc h3.2)] at hpq
    exact hpq

/-- C17 at `maxSize = 1`, `cacheMaxSize = 1`: three `push` calls and three `Token` calls
return the first two generated values in order and then nothing, as the queue of capacity 2
does. -/
theorem two_tier_refines_bounded_queue_witness :
    (0 : Int) < 1 ∧
    (BoundedQueue.empty ((1 : Int) + max 1 0) counter).results
      [Op.push, Op.push, Op.push, Op.Token, Op.Token, Op.Token]
      = [(some 0, true), (some 1, true), (none, false)] ∧
    (CacheBucket 0 1 1 1 counter none).results
      [Op.push, Op.push, Op.push, Op.Token, Op.Token, Op.Token]
      = (BoundedQueue.empty ((1 : Int) + max 1 0) counter).results
        [Op.push, Op.push, Op.push, Op.Token, Op.Token, Op.Token] :=
  ⟨by decide, by decide,
    (two_tier_refines_bounded_queue 1 1 1 counter none (by decide)
      [Op.push, Op.push, Op.push, Op.Token, Op.Token, Op.Token] _ rfl).2.1⟩

/-! ## Overflow only behind a full primary queue -/

/-- C18: in every state reached from a constructed bucket by `push` and `Token` operations,
if `caches` is non-empty then `len(list) = maxSize`; so `len(list) ≤ maxSize` still holds
after a `Token` (with or without a move from `caches`), and an empty `list` implies an empty
`caches`. -/
theorem caches_nonempty_list_full (initSize maxSize cacheMaxSize duration : Int)
    (generator : Nat → Tokenizer α) (event : Option Event) (ops : List Op)
    (b : cacheBucket α)
    (hb : b = (CacheBucket initSize maxSize cacheMaxSize duration generator event).run ops) :
    (b.caches ≠ [] → (b.list.length : Int) = b.maxSize) ∧
    (b.Token.2.list.length : Int) ≤ b.maxSize ∧
    (b.list = [] → b.caches = []) := by
  have hs := reachable_Shaped initSize maxSize cacheMaxSize duration generator event ops
  rw [← hb] at hs
  have ht := (Token_Shaped b hs).1
  rw [Token_maxSize] at ht
  refine ⟨fun hne => (hs.2 hne).1, ht, fun hl => ?_⟩
  by_contra hne
  have h3 := hs.2 hne
  rw [hl, List.length_nil] at h3
  omega

/-- C18 on the bucket with `list = [0]`, `caches = [1]` and `maxSize = 1`. -/
theorem caches_nonempty_list_full_witness :
    (CacheBucket 2 1 1 1 counter none).caches = [some 1] ∧
    (((CacheBucket 2 1 1 1 counter none).list.length : Int)
      = (CacheBucket 2 1 1 1 counter none).maxSize) :=
  ⟨by decide,
    (caches_nonempty_list_full 2 1 1 1 counter none [] _ rfl).1 (by decide)⟩

end Rater
